import Mathlib

/-!
Verification development for the ShowSweep repository.

Shallow embedding of the decision-relevant parts of the source:
`RateLimiter` (identical in overseerr_client.py / tautulli_client.py /
plex_client.py / sonarr_client.py), the per-source durable caches,
`OverseerrClient` request-recency logic, `TautulliClient.get_watch_stats`,
`PlexClient.has_watch_history`, `DatabaseManager` table operations, and the
`main_cli` eligibility loop of cli.py.

External services are modeled as oracles; `none` models a raised
network/parse exception.  Time is modeled in seconds; within a single
pipeline run all `time.time()` reads are collapsed to one instant `now`
(distinct runs get distinct instants).
-/

namespace ShowSweep

/-! ## RateLimiter (overseerr_client.py lines 13-32, identical copies in the
other clients)

The Python class keeps `rate`, `tokens`, `last` (a wall-clock timestamp).
`acquire` refills from elapsed wall time, caps at `rate`, and either consumes
a token immediately or sleeps `(1 - tokens) * 60 / rate` seconds.  Arithmetic
is modeled over `ℚ`; a Python `ZeroDivisionError` is modeled as `none`. -/

structure RateLimiter where
  rate : ℚ
  tokens : ℚ
  last : ℚ
deriving DecidableEq, Repr

/-- Models `RateLimiter.__init__(rate_per_minute)` called at wall time `t0`:
`tokens` starts at `rate_per_minute` and `last` at the construction time. -/
def RateLimiter.init (ratePerMinute t0 : ℚ) : RateLimiter :=
  ⟨ratePerMinute, ratePerMinute, t0⟩

/-- Models one `acquire()` call at wall time `now`.  Returns the successor
state together with the slept duration (`0` when a token was available), or
`none` when the Python code would raise `ZeroDivisionError` in
`(1 - self.tokens) * 60 / self.rate`.  Note the source sets `self.last = now`
with `now` read *before* the sleep. -/
def RateLimiter.acquire (s : RateLimiter) (now : ℚ) : Option (RateLimiter × ℚ) :=
  let elapsed := now - s.last
  let t1 := s.tokens + elapsed * (s.rate / 60)
  let t2 := if t1 > s.rate then s.rate else t1
  if t2 < 1 then
    if s.rate = 0 then none
    else some ({ s with tokens := 0, last := now }, (1 - t2) * 60 / s.rate)
  else
    some ({ s with tokens := t2 - 1, last := now }, 0)

/-- Models a caller issuing `n` back-to-back `acquire()` calls: each call is
issued at the completion instant of the previous one.  Returns the list of
completion instants, the final limiter state, and the final wall time. -/
def RateLimiter.runAcquires (s : RateLimiter) (now : ℚ) :
    Nat → Option (List ℚ × RateLimiter × ℚ)
  | 0 => some ([], s, now)
  | n + 1 =>
    match s.acquire now with
    | none => none
    | some (s', sleep) =>
      match RateLimiter.runAcquires s' (now + sleep) n with
      | none => none
      | some (ts, sf, nf) => some ((now + sleep) :: ts, sf, nf)

/-- Number of completion instants falling in the rolling window `[lo, hi)`. -/
def countInWindow (ts : List ℚ) (lo hi : ℚ) : Nat :=
  (ts.filter (fun t => decide (lo ≤ t) && decide (t < hi))).length

/-- Completion instants of a drained limiter at rate 60 issuing back-to-back
calls from instant `t`: each sleeping call completes one second later, and
the immediately following call is served at that same instant because the
pre-sleep `last` re-credits the slept second. -/
def pairTimes (t : ℚ) : Nat → List ℚ
  | 0 => []
  | n + 1 => (t + 1) :: (t + 1) :: pairTimes (t + 1) n

/-! ## Durable per-source cache tables

`tautulli_cache` and `plex_cache` have rows `(show_id, has_watch_history,
last_checked)` with `show_id` as primary key; SQL `REPLACE` keeps at most one
row per key.  A table is modeled as an association list queried by first
match, with `REPLACE` removing any old row for the key. -/

abbrev BoolCache := List (String × Bool × Int)

/-- Models `SELECT value, last_checked FROM cache WHERE show_id = ?`. -/
def cacheGet (c : BoolCache) (k : String) : Option (Bool × Int) :=
  match c.find? (fun e => e.1 == k) with
  | none => none
  | some e => some e.2

/-- Models `REPLACE INTO cache (show_id, value, last_checked) VALUES (?, ?, ?)`:
the primary-key conflict deletes the old row and inserts the new one. -/
def cachePut (c : BoolCache) (k : String) (v : Bool) (t : Int) : BoolCache :=
  (k, v, t) :: c.filter (fun e => !(e.1 == k))

/-- Models the freshness check shared by `OverseerrClient._check_db_cache`,
`TautulliClient.get_watch_stats` and `PlexClient.has_watch_history`: a row is
trusted only when `now - last_checked < ttl`; an expired row behaves like a
miss. -/
def cacheLookupFresh (c : BoolCache) (k : String) (now ttl : Int) : Option Bool :=
  match cacheGet c k with
  | none => none
  | some (v, t) => if now - t < ttl then some v else none

/-! ## Overseerr request recency (overseerr_client.py)

A request record's `createdAt` field is either absent, present but not ISO
parsable (in which case `datetime.fromisoformat` raises `ValueError`), or a
valid timestamp, modeled in epoch seconds. -/

inductive Timestamp where
  | missing
  | unparsable
  | valid (t : Int)
deriving DecidableEq, Repr

/-- Seconds in a day, for `timedelta(days=threshold_days)`. -/
def secondsPerDay : Int := 86400

/-- Models `OverseerrClient._is_request_recent(created_at)` (lines 242-250)
called at wall time `now` with `threshold_days = thr`.  A falsy `created_at`
returns `False`; a parsable one is recent iff `now - created_at` is strictly
below the threshold; an unparsable one raises (`none`). -/
def isRequestRecent (createdAt : Timestamp) (now thr : Int) : Option Bool :=
  match createdAt with
  | .missing => some false
  | .unparsable => none
  | .valid t => some (decide (now - t < thr * secondsPerDay))

/-- A TV request record as consumed by `_update_database_cache` /
`_process_memory_cache`: the show id extracted from `media` ( `none` models a
missing/empty `ratingKey`), the show name, and `createdAt`. -/
structure OsRequest where
  showId : Option String
  showName : String
  createdAt : Timestamp
deriving DecidableEq, Repr

/-- A row of the `overseerr_cache` table: `(show_id, has_recent_request,
request_date, last_checked)`. -/
structure OsCacheRow where
  showId : String
  showName : String
  hasRecentRequest : Bool
  requestDate : Timestamp
  lastChecked : Int
deriving DecidableEq, Repr

abbrev OsCache := List OsCacheRow

/-- Models the `overseerr_cache` primary-key `REPLACE`. -/
def osCachePut (c : OsCache) (row : OsCacheRow) : OsCache :=
  row :: c.filter (fun r => !(r.showId == row.showId))

/-- Models `SELECT has_recent_request, last_checked FROM overseerr_cache
WHERE show_id = ?` followed by the freshness check of `_check_db_cache`
(lines 221-240): `some b` on a fresh row, `none` on a miss or an expired
row. -/
def osCacheLookupFresh (c : OsCache) (k : String) (now ttl : Int) : Option Bool :=
  match c.find? (fun r => r.showId == k) with
  | none => none
  | some r => if now - r.lastChecked < ttl then some r.hasRecentRequest else none

/-- Models the loop body collecting `cache_updates` in
`_update_database_cache` (lines 125-159): records with a missing show id or a
missing `createdAt` are skipped with `continue`; `_is_request_recent` raising
on an unparsable date aborts the whole batch (`none`). -/
def buildCacheUpdates (reqs : List OsRequest) (now thr : Int) :
    Option (List OsCacheRow) :=
  match reqs with
  | [] => some []
  | r :: rest =>
    match r.showId with
    | none => buildCacheUpdates rest now thr
    | some sid =>
      match r.createdAt with
      | .missing => buildCacheUpdates rest now thr
      | created =>
        match isRequestRecent created now thr with
        | none => none
        | some recent =>
          match buildCacheUpdates rest now thr with
          | none => none
          | some rows => some (⟨sid, r.showName, recent, created, now⟩ :: rows)

/-- Models `executemany` of the `REPLACE` statement over the collected
updates, in order. -/
def applyCacheUpdates (c : OsCache) (rows : List OsCacheRow) : OsCache :=
  rows.foldl osCachePut c

/-- Models `OverseerrClient._update_database_cache(all_requests)`: on any
raised exception the `except` branch returns `False` and nothing was written
(the `executemany` is only reached after the loop completes); otherwise the
batch is applied and `True` is returned. -/
def updateDatabaseCache (reqs : List OsRequest) (now thr : Int) (c : OsCache) :
    Bool × OsCache :=
  match buildCacheUpdates reqs now thr with
  | none => (false, c)
  | some rows => (true, applyCacheUpdates c rows)

/-! ## Durable store (database.py)

`setup` creates the `shows` table (columns `id, title, last_modified,
last_processed, tvdb_id, disk_space_bytes, disk_space_formatted, action`,
primary key `id`) and the append-only `actions` table
(`id AUTOINCREMENT, show_id, action, timestamp`).  SQL `NULL` is `none`. -/

structure ShowRow where
  id : String
  title : Option String
  lastModified : Option Int
  lastProcessed : Option Int
  tvdbId : Option String
  diskSpaceBytes : Option Int
  diskSpaceFormatted : Option String
  action : Option String
deriving DecidableEq, Repr

/-- A row of the `actions` log table: `(show_id, action, timestamp)`; the
autoincrement id is the list position. -/
structure ActionRow where
  showId : String
  action : String
  timestamp : Int
deriving DecidableEq, Repr

structure Db where
  shows : List ShowRow
  actions : List ActionRow
  overseerrCache : OsCache
  tautulliCache : BoolCache
  plexCache : BoolCache
deriving DecidableEq, Repr

/-- Models `SELECT * FROM shows WHERE id = ?`. -/
def showsGet (rows : List ShowRow) (sid : String) : Option ShowRow :=
  rows.find? (fun r => r.id == sid)

/-- Models SQLite `REPLACE INTO shows ...`: the conflicting row (same primary
key) is deleted and the freshly supplied row inserted; every column the
statement does not supply becomes `NULL` in the new row. -/
def showsReplace (rows : List ShowRow) (row : ShowRow) : List ShowRow :=
  row :: rows.filter (fun r => !(r.id == row.id))

/-- Models the `REPLACE INTO shows (id, title, last_processed, action)`
statement of cli.py lines 139-140 (the eligible-show branch without a TVDB
id): the other four columns are not supplied, hence `NULL`. -/
def replaceEligibleNoTvdb (rows : List ShowRow) (sid title : String) (now : Int) :
    List ShowRow :=
  showsReplace rows
    ⟨sid, some title, none, some now, none, none, none, some "eligible"⟩

/-- Models the `REPLACE INTO shows (id, title, last_processed, action,
tvdb_id)` statement of cli.py lines 136-137 (the eligible-show branch with a
TVDB id). -/
def replaceEligibleWithTvdb (rows : List ShowRow) (sid title : String)
    (now : Int) (tvdb : String) : List ShowRow :=
  showsReplace rows
    ⟨sid, some title, none, some now, some tvdb, none, none, some "eligible"⟩

/-- Models `DatabaseManager.record_action(show_id, action)` (database.py
lines 49-62): it runs `UPDATE shows SET action = ?, last_modified = ? WHERE
id = ?` and commits.  No statement touches the `actions` table.  Returns the
`True` success flag together with the updated store. -/
def recordAction (db : Db) (sid act : String) (now : Int) : Bool × Db :=
  (true,
   { db with
      shows := db.shows.map (fun r =>
        if r.id == sid then { r with action := some act, lastModified := some now }
        else r) })

/-- Models `DatabaseManager.save_tvdb_id(show_id, tvdb_id)` (database.py
lines 64-78): `UPDATE shows SET tvdb_id = ? WHERE id = ?`, and when no row
matched, `INSERT OR IGNORE INTO shows (id, tvdb_id) VALUES (?, ?)` (all other
columns `NULL`). -/
def saveTvdbId (rows : List ShowRow) (sid tvdb : String) : List ShowRow :=
  if rows.any (fun r => r.id == sid) then
    rows.map (fun r => if r.id == sid then { r with tvdbId := some tvdb } else r)
  else
    rows ++ [⟨sid, none, none, none, some tvdb, none, none, none⟩]

/-! ## Source adapters as oracles

Each external capability is an oracle; `none` models the network call (or its
parsing) raising an exception at the adapter boundary. -/

/-- An item of the media inventory as built by `PlexClient.get_shows`. -/
structure Show where
  id : String
  title : String
  hasOnlyFirstSeason : Bool
  hasOnlyFirstEpisode : Bool
deriving DecidableEq, Repr

structure World where
  /-- Result of the Plex library enumeration in `get_shows`; `none` models
  the `except` branch, which returns `[]`. -/
  plexShows : Option (List Show)
  /-- Result of the Overseerr bulk request fetch in `_fetch_all_requests`
  (TV records, after `_extract_tv_requests`); `none` models
  `_find_working_endpoint` failing, in which case `[]` is returned and the
  in-memory cache is left unset. -/
  osRequests : Option (List OsRequest)
  /-- Result of `get_item_watch_time_stats` for a show id: whether any entry
  has `total_plays > 0`, and the TVDB id extractable from the stats
  response; `none` models a raised request error. -/
  tautulliStats : String → Option (Bool × Option String)
  /-- Result of `_fetch_metadata` + `_extract_tvdb_id` for a show id:
  `none` models a raised request error (`_fetch_metadata` returns `None`),
  `some tv` a successful response whose extraction yields `tv`. -/
  tautulliMeta : String → Option (Option String)
  /-- Result of the Plex history lookup in `has_watch_history` (a missing
  show is folded in as `some false`, which the source also caches);
  `none` models the `except` branch. -/
  plexHistory : String → Option Bool

/-- In-memory bulk request cache of `OverseerrClient` (`requests_cache`,
`requests_cache_timestamp`); `requests_cache_ttl` is fixed at 3600 s. -/
structure OsMem where
  requestsCache : Option (List OsRequest)
  timestamp : Int
deriving DecidableEq, Repr

def requestsCacheTtl : Int := 3600

/-- Models `OverseerrClient._fetch_all_requests(force_refresh)`: return the
fresh in-memory snapshot if allowed, otherwise hit the network (one outbound
fetch).  On endpoint failure `[]` is returned and neither the in-memory nor
the database cache is touched; on success both are refreshed (the batched
database write going through `_update_database_cache`).  The last component
counts outbound calls. -/
def fetchAllRequests (w : World) (mem : OsMem) (c : OsCache)
    (now thr : Int) (force : Bool) :
    List OsRequest × OsMem × OsCache × Nat :=
  match mem.requestsCache with
  | some reqs =>
    if !force && now - mem.timestamp < requestsCacheTtl then (reqs, mem, c, 0)
    else fetchFresh
  | none => fetchFresh
where
  fetchFresh :=
    match w.osRequests with
    | none => ([], mem, c, 1)
    | some reqs => (reqs, ⟨some reqs, now⟩, (updateDatabaseCache reqs now thr c).2, 1)

/-- Models `OverseerrClient._process_memory_cache(show_id, show_name)` (lines
256-287): scan the in-memory snapshot for records of this show, skipping
records with a falsy `createdAt`, tracking the most recent date, and breaking
at the first recent record.  Parsing an unparsable date raises (`none`).  On
normal completion `_update_show_cache` writes one `REPLACE` row (a `NULL`
`request_date` is modeled as `Timestamp.missing`). -/
def scanRequests (sid : String) (now thr : Int) :
    List OsRequest → Option Int → Option (Bool × Option Int)
  | [], acc => some (false, acc)
  | r :: rest, acc =>
    if (r.showId.getD "") == sid then
      match r.createdAt with
      | .missing => scanRequests sid now thr rest acc
      | .unparsable => none
      | .valid t =>
        let acc' := match acc with
          | none => some t
          | some m => if t > m then some t else some m
        if now - t < thr * secondsPerDay then some (true, acc')
        else scanRequests sid now thr rest acc'
    else scanRequests sid now thr rest acc

def processMemoryCache (reqs : List OsRequest) (sid name : String) (c : OsCache)
    (now thr : Int) : Option (Bool × OsCache) :=
  match scanRequests sid now thr reqs none with
  | none => none
  | some (hasRecent, mostRecent) =>
    some (hasRecent,
      osCachePut c
        ⟨sid, name, hasRecent,
         (match mostRecent with | some t => .valid t | none => .missing), now⟩)

/-- Models `OverseerrClient.is_recent_request(show_id)` (lines 297-325):
database cache first; on a miss, refetch the snapshot when it is absent or
stale (re-checking the database afterwards, else `False`); otherwise answer
from the fresh in-memory snapshot, catching any exception as `False`. -/
def isRecentRequest (w : World) (mem : OsMem) (c : OsCache)
    (now ttl thr : Int) (sid : String) : Bool × OsMem × OsCache × Nat :=
  match osCacheLookupFresh c sid now ttl with
  | some v => (v, mem, c, 0)
  | none =>
    match mem.requestsCache with
    | none => refetch
    | some reqs =>
      if now - mem.timestamp ≥ requestsCacheTtl then refetch
      else
        match processMemoryCache reqs sid "" c now thr with
        | none => (false, mem, c, 0)
        | some (b, c') => (b, mem, c', 0)
where
  refetch :=
    let r := fetchAllRequests w mem c now thr false
    match osCacheLookupFresh r.2.2.1 sid now ttl with
    | some v => (v, r.2.1, r.2.2.1, r.2.2.2)
    | none => (false, r.2.1, r.2.2.1, r.2.2.2)

/-- Models `TautulliClient.get_watch_stats(show_id)` (tautulli_client.py
lines 140-215): fresh cache rows answer `(cached, None)` without any call;
otherwise the stats endpoint is queried (one call).  A raised request error
returns `(False, None)` without writing the cache.  On success, when no TVDB
id is extractable from the stats response, `_fetch_metadata` issues one more
call; the boolean is then written to `tautulli_cache` and
`(has_watch_history, tvdb_id)` returned. -/
def getWatchStats (w : World) (c : BoolCache) (now ttl : Int) (sid : String) :
    (Bool × Option String) × BoolCache × Nat :=
  match cacheLookupFresh c sid now ttl with
  | some v => ((v, none), c, 0)
  | none =>
    match w.tautulliStats sid with
    | none => ((false, none), c, 1)
    | some (h, tvStats) =>
      let extra : Option String × Nat :=
        match tvStats with
        | some tv => (some tv, 0)
        | none =>
          match w.tautulliMeta sid with
          | none => (none, 1)
          | some ext => (ext, 1)
      ((h, extra.1), cachePut c sid h now, 1 + extra.2)

/-- Models `PlexClient.has_watch_history(show_id)` (plex_client.py lines
121-176): fresh cache rows answer without any call; otherwise Plex is queried
(one call) and the result cached; a raised error returns `False` without
writing the cache. -/
def hasWatchHistory (w : World) (c : BoolCache) (now ttl : Int) (sid : String) :
    Bool × BoolCache × Nat :=
  match cacheLookupFresh c sid now ttl with
  | some v => (v, c, 0)
  | none =>
    match w.plexHistory sid with
    | none => (false, c, 1)
    | some h => (h, cachePut c sid h now, 1)

/-! ## The eligibility loop of `main_cli` (cli.py lines 54-141) -/

structure Config where
  skipOverseerr : Bool
  skipTautulli : Bool
  ignoreFirstSeason : Bool
  ignoreFirstEpisode : Bool
  forceRefresh : Bool
deriving DecidableEq, Repr

/-- Terminal classification of one show in the loop. `eligible` carries
`tvdb_temp`, the TVDB id the Tautulli guard surfaced (always `none` when the
answer came from cache or the guard was skipped). -/
inductive Outcome where
  | rejectedStructural
  | rejectedRecentRequest
  | rejectedTautulli
  | rejectedPlex
  | eligible (tvdbTemp : Option String)
deriving DecidableEq, Repr

/-- Outbound calls issued for one show, per service. -/
structure GuardCalls where
  os : Nat
  taut : Nat
  plex : Nat
deriving DecidableEq, Repr

def GuardCalls.total (g : GuardCalls) : Nat := g.os + g.taut + g.plex

/-- Models the recent-request guard of the loop body: skipped entirely under
`--skip-overseerr`, otherwise `overseerr.is_recent_request(show['id'])`. -/
def osGuard (w : World) (cfg : Config) (mem : OsMem) (c : OsCache)
    (now ttl thr : Int) (k : String) : Bool × OsMem × OsCache × Nat :=
  if cfg.skipOverseerr then (false, mem, c, 0)
  else isRecentRequest w mem c now ttl thr k

/-- Models the watch-stats guard of the loop body: skipped entirely under
`--skip-tautulli` (in which case `tvdb_temp` is never assigned), otherwise
`tautulli.get_watch_stats(show['id'])`. -/
def tautGuard (w : World) (cfg : Config) (c : BoolCache) (now ttl : Int)
    (k : String) : (Bool × Option String) × BoolCache × Nat :=
  if cfg.skipTautulli then ((false, none), c, 0)
  else getWatchStats w c now ttl k

/-- Models the guard chain of the loop body (cli.py lines 72-107): structural
flags, then Overseerr recent request (unless skipped), then Tautulli watch
stats (unless skipped), then Plex watch history; each rejection `continue`s
out of the loop body. -/
def classifyShow (w : World) (cfg : Config) (db : Db) (mem : OsMem)
    (now ttl thr : Int) (s : Show) : Outcome × Db × OsMem × GuardCalls :=
  if cfg.ignoreFirstSeason && s.hasOnlyFirstSeason then
    (.rejectedStructural, db, mem, ⟨0, 0, 0⟩)
  else if cfg.ignoreFirstEpisode && s.hasOnlyFirstEpisode then
    (.rejectedStructural, db, mem, ⟨0, 0, 0⟩)
  else
    let osR := osGuard w cfg mem db.overseerrCache now ttl thr s.id
    let db1 := { db with overseerrCache := osR.2.2.1 }
    if osR.1 then (.rejectedRecentRequest, db1, osR.2.1, ⟨osR.2.2.2, 0, 0⟩)
    else
      let tautR := tautGuard w cfg db1.tautulliCache now ttl s.id
      let db2 := { db1 with tautulliCache := tautR.2.1 }
      if tautR.1.1 then
        (.rejectedTautulli, db2, osR.2.1, ⟨osR.2.2.2, tautR.2.2, 0⟩)
      else
        let plexR := hasWatchHistory w db2.plexCache now ttl s.id
        let db3 := { db2 with plexCache := plexR.2.1 }
        if plexR.1 then
          (.rejectedPlex, db3, osR.2.1, ⟨osR.2.2.2, tautR.2.2, plexR.2.2⟩)
        else
          (.eligible tautR.1.2, db3, osR.2.1, ⟨osR.2.2.2, tautR.2.2, plexR.2.2⟩)

/-- Models cli.py lines 112-141 for a show that reached eligibility: take the
TVDB id surfaced by the Tautulli guard if any, otherwise (unless Tautulli is
skipped) issue one `get_metadata` lookup; persist a found id via
`save_tvdb_id`; finally `REPLACE` the show's status row (with the id when
found, without it otherwise).  Returns the store and the outbound calls
issued. -/
def processEligible (w : World) (cfg : Config) (db : Db) (now : Int)
    (s : Show) (tvdbTemp : Option String) : Db × Nat :=
  let resolved : Option String × Nat :=
    match tvdbTemp with
    | some tv => (some tv, 0)
    | none =>
      if cfg.skipTautulli then (none, 0)
      else
        match w.tautulliMeta s.id with
        | none => (none, 1)
        | some ext => (ext, 1)
  let rows1 :=
    match resolved.1 with
    | some tv => saveTvdbId db.shows s.id tv
    | none => db.shows
  let rows2 :=
    match resolved.1 with
    | some tv => replaceEligibleWithTvdb rows1 s.id s.title now tv
    | none => replaceEligibleNoTvdb rows1 s.id s.title now
  ({ db with shows := rows2 }, resolved.2)

/-- One iteration of the `for show in shows` loop, accumulating the eligible
list, the store, the in-memory request snapshot and the outbound-call
count. -/
def pipelineStep (w : World) (cfg : Config) (now ttl thr : Int)
    (acc : List Show × Db × OsMem × Nat) (s : Show) :
    List Show × Db × OsMem × Nat :=
  let r := classifyShow w cfg acc.2.1 acc.2.2.1 now ttl thr s
  match r.1 with
  | .eligible tvTemp =>
    let e := processEligible w cfg r.2.1 now s tvTemp
    (acc.1 ++ [s], e.1, r.2.2.1, acc.2.2.2 + r.2.2.2.total + e.2)
  | _ => (acc.1, r.2.1, r.2.2.1, acc.2.2.2 + r.2.2.2.total)

/-- Models one whole run of `main_cli` up to the summary report: the
Overseerr prefetch (unless skipped), the inventory enumeration from Plex
(always a live call), and the per-show loop.  Returns the eligible shows in
order, the final store, and the total number of outbound calls issued. -/
def runPipeline (w : World) (cfg : Config) (db : Db) (now ttl thr : Int) :
    List Show × Db × Nat :=
  let pre :=
    if cfg.skipOverseerr then ((⟨none, 0⟩ : OsMem), db, 0)
    else
      let f := fetchAllRequests w ⟨none, 0⟩ db.overseerrCache now thr cfg.forceRefresh
      (f.2.1, { db with overseerrCache := f.2.2.1 }, f.2.2.2)
  let shows := w.plexShows.getD []
  let fold := shows.foldl (pipelineStep w cfg now ttl thr) ([], pre.2.1, pre.1, 0)
  (fold.1, fold.2.1, pre.2.2 + 1 + fold.2.2.2)

/-! ## Pure characterization of the guard answers

For the idempotence analysis the answer each guard produces is characterized
as a pure function of the oracle world; the invariants below state that every
fresh cache row agrees with this characterization. -/

/-- The watch-stats boolean `get_watch_stats` settles on for a show, as a
function of the world alone (an erroring call yields `False`). -/
def tautAns (w : World) (k : String) : Bool :=
  match w.tautulliStats k with
  | none => false
  | some (h, _) => h

/-- The watch-history boolean `has_watch_history` settles on for a show (an
erroring call yields `False`). -/
def plexAns (w : World) (k : String) : Bool :=
  (w.plexHistory k).getD false

/-- The boolean `_process_memory_cache` settles on when scanning the snapshot
for a show (a raised parse error is caught as `False` by the caller). -/
def scanAns (reqs : List OsRequest) (k : String) (now thr : Int) : Bool :=
  match scanRequests k now thr reqs none with
  | none => false
  | some (b, _) => b

/-- The `has_recent_request` value the prefetch batch leaves in the database
row of key `k` — the last record of the snapshot carrying that show id and a
valid date wins (`executemany` applies the `REPLACE`s in order); `none` when
the batch writes no row for `k`. -/
def prefetchVal (reqs : List OsRequest) (k : String) (now thr : Int) :
    Option Bool :=
  match reqs with
  | [] => none
  | r :: rest =>
    match prefetchVal rest k now thr with
    | some v => some v
    | none =>
      match r.showId, r.createdAt with
      | some sid, .valid t =>
        if sid == k then some (decide (now - t < thr * secondsPerDay)) else none
      | _, _ => none

/-- The recent-request boolean the Overseerr guard settles on for a show:
`False` when the endpoint is unreachable; the prefetch-row value when the
prefetch batch succeeded and covers the show; otherwise the snapshot-scan
answer. -/
def osAns (w : World) (k : String) (now thr : Int) : Bool :=
  match w.osRequests with
  | none => false
  | some reqs =>
    match buildCacheUpdates reqs now thr with
    | none => scanAns reqs k now thr
    | some _ =>
      match prefetchVal reqs k now thr with
      | some v => v
      | none => scanAns reqs k now thr

/-- Whether a show survives every enabled guard, as a pure function of the
world. -/
def eligiblePure (w : World) (cfg : Config) (now thr : Int) (s : Show) : Bool :=
  !(cfg.ignoreFirstSeason && s.hasOnlyFirstSeason) &&
  !(cfg.ignoreFirstEpisode && s.hasOnlyFirstEpisode) &&
  !(!cfg.skipOverseerr && osAns w s.id now thr) &&
  !(!cfg.skipTautulli && tautAns w s.id) &&
  !(plexAns w s.id)

/-- Whether an `Outcome` is the terminal `ELIGIBLE` classification. -/
def Outcome.isEligibleOutcome : Outcome → Bool
  | .eligible _ => true
  | _ => false

/-- The in-memory snapshot state `main_cli`'s loop runs under: either the
guard is skipped entirely, or the endpoint is unreachable and the snapshot
unset, or the snapshot holds exactly the oracle's request list with the
current run's timestamp. -/
def MemOk (w : World) (cfg : Config) (mem : OsMem) (now : Int) : Prop :=
  cfg.skipOverseerr = true ∨
  (w.osRequests = none ∧ mem.requestsCache = none) ∨
  (∃ reqs, w.osRequests = some reqs ∧ mem = ⟨some reqs, now⟩)

/-- The last row of a `REPLACE` batch carrying the given key — the row the
batch leaves in the table for that key. -/
def lastRowFor : List OsCacheRow → String → Option OsCacheRow
  | [], _ => none
  | r :: rest, k =>
    match lastRowFor rest k with
    | some r' => some r'
    | none => if r.showId == k then some r else none

/-- Invariant: every fresh row of each cache agrees with the pure answer of
its source, and (when the Overseerr guard is enabled and the prefetch batch
succeeded) every show the batch covers has a fresh row holding the batch
value. -/
def Inv (w : World) (cfg : Config) (db : Db) (now ttl thr : Int) : Prop :=
  (∀ k v, cacheLookupFresh db.tautulliCache k now ttl = some v → v = tautAns w k) ∧
  (∀ k v, cacheLookupFresh db.plexCache k now ttl = some v → v = plexAns w k) ∧
  (∀ k v, osCacheLookupFresh db.overseerrCache k now ttl = some v →
    v = osAns w k now thr) ∧
  (∀ reqs k v, cfg.skipOverseerr = false → w.osRequests = some reqs →
    (buildCacheUpdates reqs now thr).isSome = true →
    prefetchVal reqs k now thr = some v →
    osCacheLookupFresh db.overseerrCache k now ttl = some v)

/-- Every cache row of `db'` either already sat in `db` or was stamped at the
given instant — the shape of any write a run performs. -/
def StampPres (db db' : Db) (now : Int) : Prop :=
  (∀ k v t, cacheGet db'.tautulliCache k = some (v, t) →
    cacheGet db.tautulliCache k = some (v, t) ∨ t = now) ∧
  (∀ k v t, cacheGet db'.plexCache k = some (v, t) →
    cacheGet db.plexCache k = some (v, t) ∨ t = now) ∧
  (∀ k r, db'.overseerrCache.find? (fun row => row.showId == k) = some r →
    db.overseerrCache.find? (fun row => row.showId == k) = some r ∨
      r.lastChecked = now)

/-- All rows of every cache carry the given run instant as `last_checked`
(true of any store a single run builds from empty caches). -/
def Stamped (db : Db) (now : Int) : Prop :=
  (∀ k v t, cacheGet db.tautulliCache k = some (v, t) → t = now) ∧
  (∀ k v t, cacheGet db.plexCache k = some (v, t) → t = now) ∧
  (∀ k r, db.overseerrCache.find? (fun row => row.showId == k) = some r →
    r.lastChecked = now)

/-! ## Concrete scenarios -/

/-- A store with every table empty, as `DatabaseManager.setup` creates on a
first run. -/
def emptyStore : Db := ⟨[], [], [], [], []⟩

/-- Configuration with every check enabled and no flag set. -/
def fullChecks : Config := ⟨false, false, false, false, false⟩

/-- A plain show with no structural flag. -/
def showOne : Show := ⟨"s1", "Show One", false, false⟩

/-- A world in which every external call of every source adapter raises: the
Overseerr endpoint is unreachable and each per-show Tautulli/Plex lookup
errors. -/
def errWorld : World :=
  { plexShows := some [showOne]
    osRequests := none
    tautulliStats := fun _ => none
    tautulliMeta := fun _ => none
    plexHistory := fun _ => none }

/-- Show used by the two-run scenarios. -/
def showB : Show := ⟨"b", "Show B", false, false⟩

/-- A healthy world for the two-run scenarios: one show with no request, no
watch history anywhere, and TVDB id 77 discoverable both from the watch-stats
response and from the metadata endpoint. -/
def worldB : World :=
  { plexShows := some [showB]
    osRequests := some []
    tautulliStats := fun k => if k == "b" then some (false, some "77") else none
    tautulliMeta := fun k => if k == "b" then some (some "77") else none
    plexHistory := fun k => if k == "b" then some false else none }

/-- Store produced by the first run over `worldB` (run instant 1000, 24 h
cache TTL, 365-day request threshold). -/
def storeAfterRunB : Db :=
  (runPipeline worldB fullChecks emptyStore 1000 86400 365).2.1

/-- A store holding one status row, used to evaluate `record_action`. -/
def storeWithRowS1 : Db :=
  { emptyStore with
    shows := [⟨"s1", some "Show One", none, some 100, some "77", none, none,
               some "eligible"⟩] }

/-- Request list with an unparsable `createdAt` sitting before a
well-formed record. -/
def reqsWithUnparsable : List OsRequest :=
  [⟨some "u", "Bad Date", .unparsable⟩, ⟨some "a", "Good Date", .valid 0⟩]

/-- A show carrying the single-season structural flag. -/
def showFlagged : Show := ⟨"x", "Flagged", true, false⟩

/-- Configuration ignoring single-season shows, all checks enabled. -/
def cfgIgnoreSeason : Config := ⟨false, false, true, false, false⟩

/-- Store whose Overseerr cache freshly answers "recent request" for s1. -/
def storeOsHit : Db :=
  { emptyStore with overseerrCache := [⟨"s1", "", true, .missing, 1000⟩] }

/-- Store whose Tautulli cache freshly answers "watched" for s1. -/
def storeTautHit : Db :=
  { emptyStore with tautulliCache := [("s1", true, 1000)] }

/-! ## Theorems -/

/-- Claim C1: the engine does not fail closed.  In a world where every source
adapter's external call errors (Overseerr endpoint unreachable, every
Tautulli and Plex lookup raising) and no cache can answer, the pipeline
classifies the item as ELIGIBLE: each failed check degrades to `False`
("no request", "no history") and the item passes every guard, contradicting
the claimed conservative rejection. -/
theorem erroring_adapters_fail_open :
    (runPipeline errWorld fullChecks emptyStore 1000 86400 365).1 = [showOne] ∧
    (classifyShow errWorld fullChecks emptyStore ⟨none, 0⟩ 1000 86400 365
        showOne).1 = .eligible none := by
  decide

/-- Claim C2: `record_action` does not append to the `actions` log.  For
every store and every attempt it returns the `True` success flag and mutates
only the `shows` status row (action and last-modified columns); the
append-only `actions` table is left exactly as it was, so the log recording
the claim demands never happens. -/
theorem recordAction_leaves_log_unchanged (db : Db) (sid act : String)
    (now : Int) :
    (recordAction db sid act now).1 = true ∧
    (recordAction db sid act now).2.actions = db.actions ∧
    (recordAction db sid act now).2.shows =
      db.shows.map (fun r =>
        if r.id == sid then { r with action := some act, lastModified := some now }
        else r) :=
  ⟨rfl, rfl, rfl⟩

/-- Claim C4: a limiter constructed with `rate_per_minute = 0` divides by
zero on the very first `acquire()`: the zero rate is neither rejected at
construction nor treated as unlimited, and the sleep computation
`(1 - tokens) * 60 / rate` raises `ZeroDivisionError` (modeled `none`). -/
theorem zero_rate_acquire_divides_by_zero (t0 now : ℚ) :
    (RateLimiter.init 0 t0).acquire now = none := by
  simp [RateLimiter.init, RateLimiter.acquire]

/-- Claim C5: a cache `put` followed immediately by a read of the same key
yields the stored value with the write's timestamp (age `0`), and once `ttl`
seconds have elapsed with no further write the freshness check treats the
same read as stale, i.e. as absent. -/
theorem cachePut_fresh_read_then_stale (c : BoolCache) (k : String) (v : Bool)
    (t now ttl : Int) (httl : 0 < ttl) (hstale : t + ttl ≤ now) :
    cacheGet (cachePut c k v t) k = some (v, t) ∧
    cacheLookupFresh (cachePut c k v t) k t ttl = some v ∧
    cacheLookupFresh (cachePut c k v t) k now ttl = none := by
  have hg : cacheGet (cachePut c k v t) k = some (v, t) := by
    simp [cacheGet, cachePut, List.find?]
  refine ⟨hg, ?_, ?_⟩
  · simp only [cacheLookupFresh, hg]
    rw [if_pos (show t - t < ttl by omega)]
  · simp only [cacheLookupFresh, hg]
    rw [if_neg (show ¬(now - t < ttl) by omega)]

theorem cachePut_fresh_read_then_stale_witness :
    cacheGet (cachePut [] "k" true 0) "k" = some (true, 0) ∧
    cacheLookupFresh (cachePut [] "k" true 0) "k" 0 10 = some true ∧
    cacheLookupFresh (cachePut [] "k" true 0) "k" 10 10 = none :=
  cachePut_fresh_read_then_stale [] "k" true 0 10 10 (by decide) (by decide)

/-- Claim C10: re-recording a show as eligible through the four-column
`REPLACE INTO shows (id, title, last_processed, action)` yields a row whose
unsupplied columns — `last_modified`, `tvdb_id`, `disk_space_bytes`,
`disk_space_formatted` — are all `NULL`, whatever the previous row for that
id held. -/
theorem replaceEligible_resets_unsupplied_columns (rows : List ShowRow)
    (sid title : String) (now : Int) :
    showsGet (replaceEligibleNoTvdb rows sid title now) sid =
      some ⟨sid, some title, none, some now, none, none, none, some "eligible"⟩ := by
  simp [showsGet, replaceEligibleNoTvdb, showsReplace, List.find?]

/-- Shared helper: a record with a present show id and an unparsable
`createdAt`, anywhere in the batch, makes the whole `cache_updates`
collection raise. -/
lemma buildCacheUpdates_none_of_unparsable (now thr : Int) (r : OsRequest)
    (hid : r.showId.isSome = true) (hun : r.createdAt = .unparsable) :
    ∀ pre post : List OsRequest,
      buildCacheUpdates (pre ++ r :: post) now thr = none := by
  intro pre
  induction pre with
  | nil =>
    intro post
    obtain ⟨sid, hsid⟩ := Option.isSome_iff_exists.1 hid
    simp only [List.nil_append]
    rw [buildCacheUpdates, hsid, hun]
    rfl
  | cons q pre ih =>
    intro post
    simp only [List.cons_append]
    rcases hq : q.showId with _ | sid <;>
      rcases hc : q.createdAt with _ | _ | t <;>
        simp [buildCacheUpdates, hq, hc, isRequestRecent, ih post]

/-- Claim C7, counterexample: a record whose timestamp is unparsable is not
treated as not-recent — `_is_request_recent` raises — and it does prevent the
remaining records from being classified: the whole batch update returns
`False` and writes nothing, even though the well-formed record after it would
have been cached on its own. -/
theorem unparsable_timestamp_aborts_batch :
    updateDatabaseCache reqsWithUnparsable 1000 30 [] = (false, []) ∧
    isRequestRecent .unparsable 1000 30 = none ∧
    (buildCacheUpdates [⟨some "a", "Good Date", .valid 0⟩] 1000 30).isSome
      = true := by
  decide

/-- Claim C7, amended: a parsable record counts as recent exactly when
`now - createdAt` is strictly below the threshold, and a missing timestamp is
treated as not-recent; but an unparsable timestamp raises a parse error that
aborts the whole batch cache update — the batch returns `False` and no record
of it (including well-formed ones) is cached. -/
theorem requestRecency_strict_and_batch_abort (t now thr : Int)
    (r : OsRequest) (c : OsCache)
    (hid : r.showId.isSome = true) (hun : r.createdAt = .unparsable) :
    (isRequestRecent (.valid t) now thr = some true ↔
      now - t < thr * secondsPerDay) ∧
    isRequestRecent .missing now thr = some false ∧
    isRequestRecent .unparsable now thr = none ∧
    (∀ pre post,
      updateDatabaseCache (pre ++ r :: post) now thr c = (false, c)) := by
  refine ⟨?_, rfl, rfl, ?_⟩
  · simp [isRequestRecent]
  · intro pre post
    rw [updateDatabaseCache, buildCacheUpdates_none_of_unparsable now thr r hid hun pre post]

theorem requestRecency_strict_and_batch_abort_witness :
    (isRequestRecent (.valid 0) 1000 30 = some true ↔
      (1000 : Int) - 0 < 30 * secondsPerDay) ∧
    isRequestRecent .missing 1000 30 = some false ∧
    isRequestRecent .unparsable 1000 30 = none ∧
    updateDatabaseCache
      ([] ++ (⟨some "u", "Bad Date", .unparsable⟩ : OsRequest) ::
        [⟨some "a", "Good Date", .valid 0⟩]) 1000 30 [] = (false, []) := by
  have h := requestRecency_strict_and_batch_abort 0 1000 30
    ⟨some "u", "Bad Date", .unparsable⟩ [] (by decide) rfl
  exact ⟨h.1, h.2.1, h.2.2.1, h.2.2.2 [] [⟨some "a", "Good Date", .valid 0⟩]⟩

/-- Claim C9, counterexample: after a first run in which the eligible show's
TVDB id 77 was discovered and persisted to its status row, a second run whose
watch-stats answer comes from the fresh cache classifies the show eligible
with no adapter-surfaced id and issues the metadata lookup again — the stored
id is not consulted, so the id is re-derived on the later run. -/
theorem tvdb_rederived_on_second_run :
    showsGet storeAfterRunB.shows "b" =
      some ⟨"b", some "Show B", none, some 1000, some "77", none, none,
        some "eligible"⟩ ∧
    (classifyShow worldB fullChecks storeAfterRunB ⟨some [], 2000⟩ 2000 86400
        365 showB).1 = .eligible none ∧
    (processEligible worldB fullChecks storeAfterRunB 2000 showB none).2 = 1 := by
  decide

/-- Claim C6, counterexample: re-running the pipeline over an unchanged world
with every cache fresh reproduces the same eligible set but does not issue
zero outbound calls: the second run still performs the request prefetch, the
inventory enumeration and the metadata lookup for the eligible item (three
calls here). -/
theorem second_run_issues_outbound_calls :
    (runPipeline worldB fullChecks storeAfterRunB 2000 86400 365).1 =
      (runPipeline worldB fullChecks emptyStore 1000 86400 365).1 ∧
    (runPipeline worldB fullChecks storeAfterRunB 2000 86400 365).2.2 = 3 ∧
    (3 : Nat) ≠ 0 := by
  decide

/-- Claim C9, amended: for a show reaching ELIGIBLE the engine resolves the
TVDB id by preferring the adapter-surfaced value (no extra lookup), otherwise
issuing exactly one metadata lookup; a found id is persisted to the show's
status row.  However the persisted id is not consulted during
classification: a fresh watch-stats cache hit answers with no id and no
lookup, which is why a later run resolves the id again. -/
theorem eligible_resolves_and_persists_tvdb (w : World) (cfg : Config)
    (db : Db) (now ttl : Int) (s : Show) (tv : String) (b : Bool) :
    (processEligible w cfg db now s (some tv) =
      (⟨replaceEligibleWithTvdb (saveTvdbId db.shows s.id tv) s.id s.title
          now tv, db.actions, db.overseerrCache, db.tautulliCache,
          db.plexCache⟩, 0)) ∧
    (cfg.skipTautulli = false → w.tautulliMeta s.id = some (some tv) →
      processEligible w cfg db now s none =
        (⟨replaceEligibleWithTvdb (saveTvdbId db.shows s.id tv) s.id s.title
            now tv, db.actions, db.overseerrCache, db.tautulliCache,
            db.plexCache⟩, 1)) ∧
    (showsGet
        (replaceEligibleWithTvdb (saveTvdbId db.shows s.id tv) s.id s.title
          now tv) s.id =
      some ⟨s.id, some s.title, none, some now, some tv, none, none,
        some "eligible"⟩) ∧
    (cacheLookupFresh db.tautulliCache s.id now ttl = some b →
      getWatchStats w db.tautulliCache now ttl s.id =
        ((b, none), db.tautulliCache, 0)) := by
  refine ⟨rfl, ?_, ?_, ?_⟩
  · intro h1 h2
    simp [processEligible, h1, h2]
  · simp [showsGet, replaceEligibleWithTvdb, showsReplace, List.find?]
  · intro h
    simp [getWatchStats, h]

theorem eligible_resolves_and_persists_tvdb_witness :
    (processEligible worldB fullChecks storeAfterRunB 2000 showB
        (some "77") =
      (⟨replaceEligibleWithTvdb (saveTvdbId storeAfterRunB.shows showB.id
          "77") showB.id showB.title 2000 "77", storeAfterRunB.actions,
          storeAfterRunB.overseerrCache, storeAfterRunB.tautulliCache,
          storeAfterRunB.plexCache⟩, 0)) ∧
    (processEligible worldB fullChecks storeAfterRunB 2000 showB none =
      (⟨replaceEligibleWithTvdb (saveTvdbId storeAfterRunB.shows showB.id
          "77") showB.id showB.title 2000 "77", storeAfterRunB.actions,
          storeAfterRunB.overseerrCache, storeAfterRunB.tautulliCache,
          storeAfterRunB.plexCache⟩, 1)) ∧
    (showsGet
        (replaceEligibleWithTvdb (saveTvdbId storeAfterRunB.shows showB.id
          "77") showB.id showB.title 2000 "77") showB.id =
      some ⟨showB.id, some showB.title, none, some 2000, some "77", none,
        none, some "eligible"⟩) ∧
    (getWatchStats worldB storeAfterRunB.tautulliCache 2000 86400 showB.id =
      ((false, none), storeAfterRunB.tautulliCache, 0)) := by
  have h := eligible_resolves_and_persists_tvdb worldB fullChecks
    storeAfterRunB 2000 86400 showB "77" false
  exact ⟨h.1, h.2.1 rfl (by decide), h.2.2.1, h.2.2.2 (by decide)⟩

/-- Claim C8: the guard chain short-circuits.  A structurally rejected show
is classified before anything else happens — store and snapshot untouched,
zero outbound calls for it, whatever the world.  A show rejected by the
recent-request guard incurs no Tautulli or Plex call and leaves both watch
caches untouched; a show rejected by the Tautulli guard incurs no Plex call
and leaves the Plex cache untouched. -/
theorem guard_rejection_short_circuits (w : World) (cfg : Config) (db : Db)
    (mem : OsMem) (now ttl thr : Int) (s : Show) :
    (((cfg.ignoreFirstSeason && s.hasOnlyFirstSeason) ||
      (cfg.ignoreFirstEpisode && s.hasOnlyFirstEpisode)) = true →
      classifyShow w cfg db mem now ttl thr s =
        (.rejectedStructural, db, mem, ⟨0, 0, 0⟩)) ∧
    ((classifyShow w cfg db mem now ttl thr s).1 = .rejectedRecentRequest →
      (classifyShow w cfg db mem now ttl thr s).2.2.2.taut = 0 ∧
      (classifyShow w cfg db mem now ttl thr s).2.2.2.plex = 0 ∧
      (classifyShow w cfg db mem now ttl thr s).2.1.tautulliCache =
        db.tautulliCache ∧
      (classifyShow w cfg db mem now ttl thr s).2.1.plexCache =
        db.plexCache) ∧
    ((classifyShow w cfg db mem now ttl thr s).1 = .rejectedTautulli →
      (classifyShow w cfg db mem now ttl thr s).2.2.2.plex = 0 ∧
      (classifyShow w cfg db mem now ttl thr s).2.1.plexCache =
        db.plexCache) := by
  by_cases h1 : (cfg.ignoreFirstSeason && s.hasOnlyFirstSeason) = true
  · refine ⟨fun _ => by simp [classifyShow, h1], fun h => ?_, fun h => ?_⟩ <;>
      simp [classifyShow, h1] at h
  by_cases h2 : (cfg.ignoreFirstEpisode && s.hasOnlyFirstEpisode) = true
  · refine ⟨fun _ => by simp [classifyShow, h1, h2], fun h => ?_,
      fun h => ?_⟩ <;> simp [classifyShow, h1, h2] at h
  rcases hOs : osGuard w cfg mem db.overseerrCache now ttl thr s.id with
    ⟨osB, osMem2, osC, osN⟩
  rcases hTaut : tautGuard w cfg db.tautulliCache now ttl s.id with
    ⟨⟨tb, ttv⟩, tc, tn⟩
  rcases hPlex : hasWatchHistory w db.plexCache now ttl s.id with ⟨pb, pc, pn⟩
  have hcl : classifyShow w cfg db mem now ttl thr s =
      if osB then
        (.rejectedRecentRequest,
          ⟨db.shows, db.actions, osC, db.tautulliCache, db.plexCache⟩, osMem2,
          ⟨osN, 0, 0⟩)
      else if tb then
        (.rejectedTautulli,
          ⟨db.shows, db.actions, osC, tc, db.plexCache⟩, osMem2,
          ⟨osN, tn, 0⟩)
      else if pb then
        (.rejectedPlex,
          ⟨db.shows, db.actions, osC, tc, pc⟩, osMem2, ⟨osN, tn, pn⟩)
      else
        (.eligible ttv,
          ⟨db.shows, db.actions, osC, tc, pc⟩, osMem2, ⟨osN, tn, pn⟩) := by
    simp [classifyShow, h1, h2, hOs, hTaut, hPlex]
  rw [hcl]
  refine ⟨fun h => ?_, fun h => ?_, fun h => ?_⟩
  · rw [Bool.or_eq_true] at h
    simp [h1, h2] at h
  · cases osB <;> cases tb <;> cases pb <;> simp_all
  · cases osB <;> cases tb <;> cases pb <;> simp_all

theorem guard_rejection_short_circuits_witness :
    (classifyShow errWorld cfgIgnoreSeason emptyStore ⟨none, 0⟩ 1000 86400 365
        showFlagged =
      (.rejectedStructural, emptyStore, ⟨none, 0⟩, ⟨0, 0, 0⟩)) ∧
    ((classifyShow worldB fullChecks storeOsHit ⟨none, 0⟩ 1000 86400 365
        showOne).2.2.2.taut = 0 ∧
      (classifyShow worldB fullChecks storeOsHit ⟨none, 0⟩ 1000 86400 365
        showOne).2.2.2.plex = 0 ∧
      (classifyShow worldB fullChecks storeOsHit ⟨none, 0⟩ 1000 86400 365
        showOne).2.1.tautulliCache = storeOsHit.tautulliCache ∧
      (classifyShow worldB fullChecks storeOsHit ⟨none, 0⟩ 1000 86400 365
        showOne).2.1.plexCache = storeOsHit.plexCache) ∧
    ((classifyShow worldB fullChecks storeTautHit ⟨none, 0⟩ 1000 86400 365
        showOne).2.2.2.plex = 0 ∧
      (classifyShow worldB fullChecks storeTautHit ⟨none, 0⟩ 1000 86400 365
        showOne).2.1.plexCache = storeTautHit.plexCache) := by
  have ha := guard_rejection_short_circuits errWorld cfgIgnoreSeason
    emptyStore ⟨none, 0⟩ 1000 86400 365 showFlagged
  have hb := guard_rejection_short_circuits worldB fullChecks storeOsHit
    ⟨none, 0⟩ 1000 86400 365 showOne
  have hc := guard_rejection_short_circuits worldB fullChecks storeTautHit
    ⟨none, 0⟩ 1000 86400 365 showOne
  exact ⟨ha.1 (by decide), hb.2.1 (by decide), hc.2.2 (by decide)⟩

/-! ## Rate limiter trace lemmas -/

/-- Shared helper: when the refilled token count reaches at least one (and
the cap does not bite), `acquire` consumes immediately. -/
lemma acquire_consume (s : RateLimiter) (now : ℚ)
    (h1 : 1 ≤ s.tokens + (now - s.last) * (s.rate / 60))
    (h2 : s.tokens + (now - s.last) * (s.rate / 60) ≤ s.rate) :
    s.acquire now =
      some (⟨s.rate, s.tokens + (now - s.last) * (s.rate / 60) - 1, now⟩, 0) := by
  simp only [RateLimiter.acquire]
  rw [if_neg (not_lt.2 h2), if_neg (not_lt.2 h1)]

/-- Shared helper: with less than one token after the refill the call sleeps
`(1 - tokens) * 60 / rate` seconds, zeroes the bucket, and — crucially —
stores the pre-sleep instant in `last`. -/
lemma acquire_sleep (s : RateLimiter) (now : ℚ)
    (h1 : s.tokens + (now - s.last) * (s.rate / 60) < 1)
    (h2 : s.tokens + (now - s.last) * (s.rate / 60) ≤ s.rate)
    (hr : s.rate ≠ 0) :
    s.acquire now =
      some (⟨s.rate, 0, now⟩,
        (1 - (s.tokens + (now - s.last) * (s.rate / 60))) * 60 / s.rate) := by
  simp only [RateLimiter.acquire]
  rw [if_neg (not_lt.2 h2), if_pos h1, if_neg hr]

/-- Shared helper: zero back-to-back calls complete immediately with the
state unchanged. -/
lemma runAcquires_zero (s : RateLimiter) (now : ℚ) :
    s.runAcquires now 0 = some ([], s, now) := rfl

/-- Shared helper: one-step unfolding of the back-to-back call trace. -/
lemma runAcquires_succ (s : RateLimiter) (now : ℚ) (n : ℕ) :
    s.runAcquires now (n + 1) =
      match s.acquire now with
      | none => none
      | some (s', sleep) =>
        match RateLimiter.runAcquires s' (now + sleep) n with
        | none => none
        | some (ts, sf, nf) => some ((now + sleep) :: ts, sf, nf) := rfl

/-- Shared helper: issuing `m + n` back-to-back calls chains the first `m`
with the remaining `n`. -/
lemma runAcquires_add (m : ℕ) : ∀ (s : RateLimiter) (now : ℚ) (n : ℕ),
    s.runAcquires now (m + n) =
      match s.runAcquires now m with
      | none => none
      | some (ts, s1, n1) =>
        match s1.runAcquires n1 n with
        | none => none
        | some (ts2, s2, n2) => some (ts ++ ts2, s2, n2) := by
  induction m with
  | zero =>
    intro s now n
    simp only [Nat.zero_add, runAcquires_zero]
    rcases h : s.runAcquires now n with _ | ⟨ts, s2, n2⟩ <;> simp [h]
  | succ m ih =>
    intro s now n
    have hmn : m + 1 + n = (m + n) + 1 := by omega
    rw [hmn, runAcquires_succ, runAcquires_succ]
    rcases ha : s.acquire now with _ | ⟨s', sl⟩
    · simp
    · simp only []
      rw [ih]
      rcases hb : s'.runAcquires (now + sl) m with _ | ⟨ts, s1, n1⟩
      · simp [hb]
      · rcases hc : s1.runAcquires n1 n with _ | ⟨ts2, s2, n2⟩ <;>
          simp [hb, hc]

/-- Shared helper: a limiter at rate 60 holding `n ≤ 60` tokens serves `n`
back-to-back calls instantly. -/
lemma runAcquires_burst (n : ℕ) (hn : n ≤ 60) (t : ℚ) :
    RateLimiter.runAcquires ⟨60, (n : ℚ), t⟩ t n =
      some (List.replicate n t, ⟨60, 0, t⟩, t) := by
  induction n with
  | zero => simp [runAcquires_zero]
  | succ n ih =>
    have ht : (t - t) * ((60 : ℚ) / 60) = 0 := by ring
    have hn' : ((n : ℚ) + 1) ≤ 60 := by exact_mod_cast hn
    have h1 : (1 : ℚ) ≤ ((n + 1 : ℕ) : ℚ) + (t - t) * (60 / 60) := by
      rw [ht]
      push_cast
      have : (0 : ℚ) ≤ n := Nat.cast_nonneg n
      linarith
    have h2 : ((n + 1 : ℕ) : ℚ) + (t - t) * (60 / 60) ≤ 60 := by
      rw [ht]
      push_cast
      linarith
    have ha' : RateLimiter.acquire ⟨60, ((n + 1 : ℕ) : ℚ), t⟩ t =
        some (⟨60, (n : ℚ), t⟩, 0) := by
      rw [acquire_consume ⟨60, ((n + 1 : ℕ) : ℚ), t⟩ t h1 h2]
      congr 2
      push_cast
      ring
    rw [runAcquires_succ, ha']
    simp only []
    rw [add_zero, ih (by omega)]
    simp [List.replicate]

/-- Shared helper: a drained limiter at rate 60 serves back-to-back calls in
pairs — the sleeping call completes one second later, and the very next call
is served at that same instant because `last` was set before the sleep,
re-crediting the slept second. -/
lemma runAcquires_pairs (n : ℕ) : ∀ t : ℚ,
    RateLimiter.runAcquires ⟨60, 0, t⟩ t (2 * n) =
      some (pairTimes t n, ⟨60, 0, t + n⟩, t + n) := by
  induction n with
  | zero =>
    intro t
    simp [runAcquires_zero, pairTimes]
  | succ n ih =>
    intro t
    have hs1' : RateLimiter.acquire ⟨60, 0, t⟩ t = some (⟨60, 0, t⟩, 1) := by
      rw [acquire_sleep ⟨60, 0, t⟩ t (by norm_num) (by norm_num) (by norm_num)]
      norm_num
    have hs2' : RateLimiter.acquire ⟨60, 0, t⟩ (t + 1) =
        some (⟨60, 0, t + 1⟩, 0) := by
      rw [acquire_consume ⟨60, 0, t⟩ (t + 1) (by norm_num) (by norm_num)]
      congr 2
      ring
    have hmul : 2 * (n + 1) = (2 * n) + 1 + 1 := by omega
    rw [hmul, runAcquires_succ, hs1']
    simp only []
    rw [runAcquires_succ, hs2']
    simp only []
    rw [add_zero, ih (t + 1)]
    simp only [pairTimes]
    push_cast
    ring_nf

/-- Shared helper: window counting distributes over concatenation. -/
lemma countInWindow_append (xs ys : List ℚ) (lo hi : ℚ) :
    countInWindow (xs ++ ys) lo hi =
      countInWindow xs lo hi + countInWindow ys lo hi := by
  simp [countInWindow, List.filter_append]

/-- Shared helper: the initial burst at instant 0 lies outside the window
`[1/2, 121/2)`. -/
lemma countInWindow_replicate_zero (n : ℕ) :
    countInWindow (List.replicate n 0) (1/2) (121/2) = 0 := by
  have hp : (decide ((1 : ℚ)/2 ≤ 0) && decide ((0 : ℚ) < 121/2)) = false := by
    norm_num
  simp [countInWindow, List.filter_replicate, hp]

/-- Shared helper: all `2 * n` paired completions land inside the window
`[1/2, 121/2)` when they occur between instants 1 and 60. -/
lemma countInWindow_pairTimes (n : ℕ) : ∀ t : ℚ, 0 ≤ t → t + n ≤ 60 →
    countInWindow (pairTimes t n) (1/2) (121/2) = 2 * n := by
  induction n with
  | zero =>
    intro t _ _
    simp [pairTimes, countInWindow]
  | succ n ih =>
    intro t h0 hn
    have hcast : (0 : ℚ) ≤ n := Nat.cast_nonneg n
    have hn' : t + ((n : ℚ) + 1) ≤ 60 := by push_cast at hn; linarith
    have hlo : ((1 : ℚ)/2 ≤ t + 1) := by linarith
    have hhi : (t + 1 < (121 : ℚ)/2) := by linarith
    have hp : (decide ((1 : ℚ)/2 ≤ t + 1) && decide (t + 1 < (121 : ℚ)/2))
        = true := by
      simp only [Bool.and_eq_true, decide_eq_true_eq]
      exact ⟨hlo, hhi⟩
    have hrec := ih (t + 1) (by linarith) (by linarith)
    simp only [countInWindow] at hrec
    simp only [pairTimes, countInWindow, List.filter, hp, List.length_cons]
    omega

/-- Claim C3: the rolling-window bound fails.  A limiter constructed at rate
60 per minute and issued 180 back-to-back `acquire()` calls completes the
first 60 instantly and then two calls per second: 120 calls complete inside
the one-minute window `[1/2, 121/2)`, twice the configured 60.  The source of
the excess is that `last` is set to the instant read before the sleep, so the
next refill credits the slept interval a second time. -/
theorem rateLimiter_exceeds_window_bound :
    RateLimiter.runAcquires (RateLimiter.init 60 0) 0 180 =
      some (List.replicate 60 (0 : ℚ) ++ pairTimes 0 60, ⟨60, 0, 60⟩, 60) ∧
    countInWindow (List.replicate 60 (0 : ℚ) ++ pairTimes 0 60) (1/2) (121/2)
      = 120 ∧
    60 < 120 := by
  refine ⟨?_, ?_, by norm_num⟩
  · have hb : RateLimiter.runAcquires ⟨60, (60 : ℚ), 0⟩ 0 60 =
        some (List.replicate 60 (0 : ℚ), ⟨60, 0, 0⟩, 0) := by
      have := runAcquires_burst 60 (le_refl 60) 0
      norm_num at this
      exact this
    have hp : RateLimiter.runAcquires ⟨60, 0, 0⟩ 0 120 =
        some (pairTimes 0 60, ⟨60, 0, 60⟩, 60) := by
      have := runAcquires_pairs 60 0
      norm_num at this
      exact this
    have h180 : (180 : ℕ) = 60 + 120 := by norm_num
    rw [show RateLimiter.init 60 0 = (⟨60, 60, 0⟩ : RateLimiter) from rfl,
      h180, runAcquires_add]
    simp only [hb, hp]
  · rw [countInWindow_append, countInWindow_replicate_zero,
      countInWindow_pairTimes 60 0 (by norm_num) (by norm_num)]

/-! ## Cache lookup lemmas -/

/-- Shared helper: removing the rows of one key leaves lookups of any other
key unchanged. -/
lemma find?_key_filter (c : BoolCache) (k k' : String) (h : k' ≠ k) :
    (c.filter (fun e => !(e.1 == k))).find? (fun e => e.1 == k') =
      c.find? (fun e => e.1 == k') := by
  induction c with
  | nil => rfl
  | cons e rest ih =>
    by_cases he : e.1 = k
    · have hk' : (k == k') = false := by
        simp
        exact fun hk => h hk.symm
      simp [List.filter, List.find?, he, hk', ih]
    · by_cases he' : e.1 = k'
      · have h2 : (k' == k) = false := by
          simp
          exact h
        simp [List.filter, List.find?, he', h2]
      · have h2 : (e.1 == k) = false := by
          simp
          exact he
        have h3 : (e.1 == k') = false := by
          simp
          exact he'
        simp [List.filter, List.find?, h2, h3, ih]

/-- Shared helper: lookup after a `REPLACE` into a boolean cache. -/
lemma cacheGet_cachePut (c : BoolCache) (k : String) (v : Bool) (t : Int)
    (k' : String) :
    cacheGet (cachePut c k v t) k' =
      if k' = k then some (v, t) else cacheGet c k' := by
  by_cases h : k' = k
  · subst h
    simp [cacheGet, cachePut, List.find?]
  · have hh : (k == k') = false := by
      simp
      exact fun hk => h hk.symm
    simp only [cacheGet, cachePut, List.find?, hh, if_neg h]
    rw [find?_key_filter c k k' h]

/-- Shared helper: freshness lookup after a `REPLACE` into a boolean
cache. -/
lemma cacheLookupFresh_cachePut (c : BoolCache) (k : String) (v : Bool)
    (t now ttl : Int) (k' : String) :
    cacheLookupFresh (cachePut c k v t) k' now ttl =
      if k' = k then (if now - t < ttl then some v else none)
      else cacheLookupFresh c k' now ttl := by
  by_cases h : k' = k <;>
    simp [cacheLookupFresh, cacheGet_cachePut, h]

/-- Shared helper: removing the rows of one key leaves Overseerr lookups of
any other key unchanged. -/
lemma osFind_filter (c : OsCache) (k k' : String) (h : k' ≠ k) :
    (c.filter (fun r => !(r.showId == k))).find? (fun r => r.showId == k') =
      c.find? (fun r => r.showId == k') := by
  induction c with
  | nil => rfl
  | cons r rest ih =>
    by_cases he : r.showId = k
    · have hk' : (k == k') = false := by
        simp
        exact fun hk => h hk.symm
      simp [List.filter, List.find?, he, hk', ih]
    · by_cases he' : r.showId = k'
      · have h2 : (k' == k) = false := by
          simp
          exact h
        simp [List.filter, List.find?, he', h2]
      · have h2 : (r.showId == k) = false := by
          simp
          exact he
        have h3 : (r.showId == k') = false := by
          simp
          exact he'
        simp [List.filter, List.find?, h2, h3, ih]

/-- Shared helper: lookup after a `REPLACE` into the Overseerr cache. -/
lemma osFind_osCachePut (c : OsCache) (row : OsCacheRow) (k' : String) :
    (osCachePut c row).find? (fun r => r.showId == k') =
      if k' = row.showId then some row
      else c.find? (fun r => r.showId == k') := by
  by_cases h : k' = row.showId
  · subst h
    simp [osCachePut, List.find?]
  · have hh : (row.showId == k') = false := by
      simp
      exact fun hk => h hk.symm
    simp only [osCachePut, List.find?, hh, if_neg h]
    rw [osFind_filter c row.showId k' h]

/-- Shared helper: freshness lookup after a `REPLACE` into the Overseerr
cache. -/
lemma osCacheLookupFresh_put (c : OsCache) (row : OsCacheRow)
    (now ttl : Int) (k' : String) :
    osCacheLookupFresh (osCachePut c row) k' now ttl =
      if k' = row.showId then
        (if now - row.lastChecked < ttl then some row.hasRecentRequest
         else none)
      else osCacheLookupFresh c k' now ttl := by
  by_cases h : k' = row.showId <;>
    simp [osCacheLookupFresh, osFind_osCachePut, h]

/-! ## Drift lemmas: guard answers are stable between two run instants as
long as no request record crosses the recency threshold. -/

/-- Shared helper: the snapshot scan is unchanged between two instants that
classify every timestamp's recency identically. -/
lemma scanRequests_drift (k : String) (now1 now2 thr : Int) :
    ∀ (reqs : List OsRequest) (acc : Option Int),
      (∀ r ∈ reqs, ∀ t : Int, r.createdAt = .valid t →
        (now2 - t < thr * secondsPerDay ↔ now1 - t < thr * secondsPerDay)) →
      scanRequests k now2 thr reqs acc = scanRequests k now1 thr reqs acc := by
  intro reqs
  induction reqs with
  | nil => intro acc hd; rfl
  | cons r rest ih =>
    intro acc hd
    have hdrest : ∀ r' ∈ rest, ∀ t : Int, r'.createdAt = .valid t →
        (now2 - t < thr * secondsPerDay ↔ now1 - t < thr * secondsPerDay) :=
      fun r' hr' t ht => hd r' (List.mem_cons_of_mem r hr') t ht
    have ihh := fun acc' => ih acc' hdrest
    by_cases hm : ((r.showId.getD "") == k) = true
    · rcases hc : r.createdAt with _ | _ | t
      · simp [scanRequests, hm, hc, ihh]
      · simp [scanRequests, hm, hc]
      · have hdt := hd r (List.mem_cons_self r rest) t hc
        by_cases hr : now1 - t < thr * secondsPerDay
        · simp [scanRequests, hm, hc, hr, hdt.mpr hr]
        · have hr2 : ¬(now2 - t < thr * secondsPerDay) := fun hx => hr (hdt.1 hx)
          simp [scanRequests, hm, hc, hr, hr2, ihh]
    · simp [scanRequests, hm, ihh]

/-- Shared helper: the scan answer is drift-stable over the batch dates. -/
lemma scanAns_drift (reqs : List OsRequest) (k : String) (now1 now2 thr : Int)
    (hd : ∀ r ∈ reqs, ∀ t : Int, r.createdAt = .valid t →
      (now2 - t < thr * secondsPerDay ↔ now1 - t < thr * secondsPerDay)) :
    scanAns reqs k now2 thr = scanAns reqs k now1 thr := by
  simp [scanAns, scanRequests_drift k now1 now2 thr reqs none hd]

/-- Shared helper: the prefetch row value is drift-stable over the batch
dates. -/
lemma prefetchVal_drift (k : String) (now1 now2 thr : Int) :
    ∀ reqs : List OsRequest,
      (∀ r ∈ reqs, ∀ t : Int, r.createdAt = .valid t →
        (now2 - t < thr * secondsPerDay ↔ now1 - t < thr * secondsPerDay)) →
      prefetchVal reqs k now2 thr = prefetchVal reqs k now1 thr := by
  intro reqs
  induction reqs with
  | nil => intro hd; rfl
  | cons r rest ih =>
    intro hd
    have hdrest : ∀ r' ∈ rest, ∀ t : Int, r'.createdAt = .valid t →
        (now2 - t < thr * secondsPerDay ↔ now1 - t < thr * secondsPerDay) :=
      fun r' hr' t ht => hd r' (List.mem_cons_of_mem r hr') t ht
    simp only [prefetchVal, ih hdrest]
    rcases hs : r.showId with _ | sid
    · simp
    · rcases hc : r.createdAt with _ | _ | t
      · simp
      · simp
      · simp [decide_eq_decide.mpr (hd r (List.mem_cons_self r rest) t hc)]

/-- Shared helper: whether the prefetch batch raises does not depend on the
run instant. -/
lemma buildCacheUpdates_isSome_drift (now1 now2 thr : Int) :
    ∀ reqs : List OsRequest,
      (buildCacheUpdates reqs now2 thr).isSome =
        (buildCacheUpdates reqs now1 thr).isSome := by
  intro reqs
  induction reqs with
  | nil => rfl
  | cons r rest ih =>
    rcases hs : r.showId with _ | sid
    · simp [buildCacheUpdates, hs, ih]
    · rcases hc : r.createdAt with _ | _ | t
      · simp [buildCacheUpdates, hs, hc, ih]
      · simp [buildCacheUpdates, hs, hc, isRequestRecent]
      · simp only [buildCacheUpdates, hs, hc, isRequestRecent]
        rcases h1 : buildCacheUpdates rest now1 thr with _ | rows1 <;>
          rcases h2 : buildCacheUpdates rest now2 thr with _ | rows2 <;>
            simp [h1, h2] at ih ⊢

/-- Shared helper: the pure Overseerr answer is unchanged between two run
instants that agree on the recency of every valid request date the world
holds. -/
lemma osAns_drift (w : World) (k : String) (now1 now2 thr : Int)
    (hd : ∀ reqs, w.osRequests = some reqs → ∀ r ∈ reqs, ∀ t : Int,
      r.createdAt = .valid t →
      (now2 - t < thr * secondsPerDay ↔ now1 - t < thr * secondsPerDay)) :
    osAns w k now2 thr = osAns w k now1 thr := by
  rcases hw : w.osRequests with _ | reqs
  · simp [osAns, hw]
  · have hd' := hd reqs hw
    simp only [osAns, hw]
    have hb := buildCacheUpdates_isSome_drift now1 now2 thr reqs
    rcases h1 : buildCacheUpdates reqs now1 thr with _ | rows1 <;>
      rcases h2 : buildCacheUpdates reqs now2 thr with _ | rows2
    · exact scanAns_drift reqs k now1 now2 thr hd'
    · simp [h1, h2] at hb
    · simp [h1, h2] at hb
    · rw [prefetchVal_drift k now1 now2 thr reqs hd']
      rcases hp : prefetchVal reqs k now1 thr with _ | v
      · exact scanAns_drift reqs k now1 now2 thr hd'
      · rfl

/-! ## Prefetch batch lemmas -/

/-- Shared helper: every row the batch collects is stamped at the run
instant. -/
lemma buildCacheUpdates_stamped (now thr : Int) :
    ∀ (reqs : List OsRequest) (rows : List OsCacheRow),
      buildCacheUpdates reqs now thr = some rows →
      ∀ r ∈ rows, r.lastChecked = now := by
  intro reqs
  induction reqs with
  | nil =>
    intro rows h r hr
    simp [buildCacheUpdates] at h
    subst h
    simp at hr
  | cons q rest ih =>
    intro rows h r hr
    rcases hs : q.showId with _ | sid
    · rw [buildCacheUpdates, hs] at h
      exact ih rows h r hr
    · rcases hc : q.createdAt with _ | _ | t
      · rw [buildCacheUpdates, hs, hc] at h
        exact ih rows h r hr
      · rw [buildCacheUpdates, hs, hc] at h
        simp [isRequestRecent] at h
      · rw [buildCacheUpdates, hs, hc] at h
        simp only [isRequestRecent] at h
        rcases hb : buildCacheUpdates rest now thr with _ | rows'
        · rw [hb] at h
          simp at h
        · rw [hb] at h
          simp at h
          subst h
          rcases List.mem_cons.mp hr with hrr | hrr
          · rw [hrr]
          · exact ih rows' hb r hrr

/-- Shared helper: the row the batch leaves for a key carries the
`prefetchVal` boolean (and the run stamp), or no row when the key is not
covered. -/
lemma lastRowFor_build (now thr : Int) :
    ∀ (reqs : List OsRequest) (rows : List OsCacheRow),
      buildCacheUpdates reqs now thr = some rows → ∀ k,
      (match prefetchVal reqs k now thr with
       | some v => ∃ nm d, lastRowFor rows k = some ⟨k, nm, v, d, now⟩
       | none => lastRowFor rows k = none) := by
  intro reqs
  induction reqs with
  | nil =>
    intro rows h k
    simp [buildCacheUpdates] at h
    subst h
    simp [prefetchVal, lastRowFor]
  | cons q rest ih =>
    intro rows h k
    rcases hs : q.showId with _ | sid
    · rw [buildCacheUpdates, hs] at h
      have hthis := ih rows h k
      rcases hp : prefetchVal rest k now thr with _ | v <;>
        rw [hp] at hthis <;> simpa [prefetchVal, hs, hp] using hthis
    · rcases hc : q.createdAt with _ | _ | t
      · rw [buildCacheUpdates, hs, hc] at h
        have hthis := ih rows h k
        rcases hp : prefetchVal rest k now thr with _ | v <;>
          rw [hp] at hthis <;> simpa [prefetchVal, hs, hc, hp] using hthis
      · rw [buildCacheUpdates, hs, hc] at h
        simp [isRequestRecent] at h
      · rw [buildCacheUpdates, hs, hc] at h
        simp only [isRequestRecent] at h
        rcases hb : buildCacheUpdates rest now thr with _ | rows'
        · rw [hb] at h
          simp at h
        · rw [hb] at h
          simp at h
          subst h
          have hrest := ih rows' hb k
          simp only [prefetchVal, hs, hc]
          rcases hp : prefetchVal rest k now thr with _ | v
          · rw [hp] at hrest
            by_cases hk : (sid == k) = true
            · have hk' : sid = k := by simpa using hk
              subst hk'
              simp only [lastRowFor, hrest, hk, if_pos rfl]
              exact ⟨q.showName, .valid t, by simp [lastRowFor, hrest]⟩
            · simp [lastRowFor, hrest, hk]
          · rw [hp] at hrest
            obtain ⟨nm, d, hlast⟩ := hrest
            exact ⟨nm, d, by simp [lastRowFor, hlast]⟩

/-- Shared helper: lookup after applying a `REPLACE` batch. -/
lemma applyCacheUpdates_find :
    ∀ (rows : List OsCacheRow) (c : OsCache) (k : String),
      (applyCacheUpdates c rows).find? (fun r => r.showId == k) =
        match lastRowFor rows k with
        | some r => some r
        | none => c.find? (fun r => r.showId == k) := by
  intro rows
  induction rows with
  | nil => intro c k; simp [applyCacheUpdates, lastRowFor]
  | cons row rest ih =>
    intro c k
    have hstep : applyCacheUpdates c (row :: rest) =
        applyCacheUpdates (osCachePut c row) rest := rfl
    rw [hstep, ih (osCachePut c row) k]
    rcases hl : lastRowFor rest k with _ | r'
    · simp only [lastRowFor, hl, osFind_osCachePut]
      by_cases hk : k = row.showId
      · have : (row.showId == k) = true := by simp [hk]
        simp [hk, this]
      · have : (row.showId == k) = false := by
          simp
          exact fun hx => hk hx.symm
        simp [hk, this]
    · simp [lastRowFor, hl]

/-! ## Guard purity lemmas -/

/-- Shared helper: `get_watch_stats` answers `tautAns` whenever every fresh
cache row agrees with `tautAns`, and the cache it returns keeps that
agreement, with every row either old or stamped now. -/
lemma getWatchStats_pure (w : World) (c : BoolCache) (now ttl : Int)
    (k : String) (httl : 0 < ttl)
    (hc : ∀ k' v, cacheLookupFresh c k' now ttl = some v → v = tautAns w k') :
    (getWatchStats w c now ttl k).1.1 = tautAns w k ∧
    (∀ k' v, cacheLookupFresh (getWatchStats w c now ttl k).2.1 k' now ttl
      = some v → v = tautAns w k') ∧
    (∀ k' v t, cacheGet (getWatchStats w c now ttl k).2.1 k' = some (v, t) →
      cacheGet c k' = some (v, t) ∨ t = now) := by
  rcases hl : cacheLookupFresh c k now ttl with _ | v
  · rcases hw : w.tautulliStats k with _ | ⟨h, tv⟩
    · refine ⟨by simp [getWatchStats, hl, hw, tautAns], ?_, ?_⟩
      · intro k' v hv
        exact hc k' v (by simpa [getWatchStats, hl, hw] using hv)
      · intro k' v t hv
        exact Or.inl (by simpa [getWatchStats, hl, hw] using hv)
    · refine ⟨by simp [getWatchStats, hl, hw, tautAns], ?_, ?_⟩
      · intro k' v hv
        have hv' : cacheLookupFresh (cachePut c k h now) k' now ttl
            = some v := by
          simpa [getWatchStats, hl, hw] using hv
        rw [cacheLookupFresh_cachePut] at hv'
        by_cases hk : k' = k
        · rw [if_pos hk, if_pos (show now - now < ttl by omega)] at hv'
          subst hk
          simp at hv'
          simp [tautAns, hw, hv']
        · rw [if_neg hk] at hv'
          exact hc k' v hv'
      · intro k' v t hv
        have hv' : cacheGet (cachePut c k h now) k' = some (v, t) := by
          simpa [getWatchStats, hl, hw] using hv
        rw [cacheGet_cachePut] at hv'
        by_cases hk : k' = k
        · rw [if_pos hk] at hv'
          simp at hv'
          exact Or.inr hv'.2.symm
        · rw [if_neg hk] at hv'
          exact Or.inl hv'
  · refine ⟨?_, ?_, ?_⟩
    · have := hc k v hl
      simp [getWatchStats, hl, this]
    · intro k' v' hv
      exact hc k' v' (by simpa [getWatchStats, hl] using hv)
    · intro k' v' t hv
      exact Or.inl (by simpa [getWatchStats, hl] using hv)

/-- Shared helper: `has_watch_history` answers `plexAns` under the analogous
cache agreement, preserving it. -/
lemma hasWatchHistory_pure (w : World) (c : BoolCache) (now ttl : Int)
    (k : String) (httl : 0 < ttl)
    (hc : ∀ k' v, cacheLookupFresh c k' now ttl = some v → v = plexAns w k') :
    (hasWatchHistory w c now ttl k).1 = plexAns w k ∧
    (∀ k' v, cacheLookupFresh (hasWatchHistory w c now ttl k).2.1 k' now ttl
      = some v → v = plexAns w k') ∧
    (∀ k' v t, cacheGet (hasWatchHistory w c now ttl k).2.1 k' = some (v, t) →
      cacheGet c k' = some (v, t) ∨ t = now) := by
  rcases hl : cacheLookupFresh c k now ttl with _ | v
  · rcases hw : w.plexHistory k with _ | h
    · refine ⟨by simp [hasWatchHistory, hl, hw, plexAns], ?_, ?_⟩
      · intro k' v hv
        exact hc k' v (by simpa [hasWatchHistory, hl, hw] using hv)
      · intro k' v t hv
        exact Or.inl (by simpa [hasWatchHistory, hl, hw] using hv)
    · refine ⟨by simp [hasWatchHistory, hl, hw, plexAns], ?_, ?_⟩
      · intro k' v hv
        have hv' : cacheLookupFresh (cachePut c k h now) k' now ttl
            = some v := by
          simpa [hasWatchHistory, hl, hw] using hv
        rw [cacheLookupFresh_cachePut] at hv'
        by_cases hk : k' = k
        · rw [if_pos hk, if_pos (show now - now < ttl by omega)] at hv'
          subst hk
          simp at hv'
          simp [plexAns, hw, hv']
        · rw [if_neg hk] at hv'
          exact hc k' v hv'
      · intro k' v t hv
        have hv' : cacheGet (cachePut c k h now) k' = some (v, t) := by
          simpa [hasWatchHistory, hl, hw] using hv
        rw [cacheGet_cachePut] at hv'
        by_cases hk : k' = k
        · rw [if_pos hk] at hv'
          simp at hv'
          exact Or.inr hv'.2.symm
        · rw [if_neg hk] at hv'
          exact Or.inl hv'
  · refine ⟨?_, ?_, ?_⟩
    · have := hc k v hl
      simp [hasWatchHistory, hl, this]
    · intro k' v' hv
      exact hc k' v' (by simpa [hasWatchHistory, hl] using hv)
    · intro k' v' t hv
      exact Or.inl (by simpa [hasWatchHistory, hl] using hv)

/-- Shared helper: under the run's snapshot state, `is_recent_request`
answers `osAns` whenever every fresh row agrees with `osAns` and every
covered key has a fresh row with its batch value; both properties are
preserved, the snapshot is untouched, and every row is old or stamped now. -/
lemma isRecentRequest_pure (w : World) (mem : OsMem) (c : OsCache)
    (now ttl thr : Int) (k : String) (httl : 0 < ttl)
    (hmem : (w.osRequests = none ∧ mem.requestsCache = none) ∨
      (∃ reqs, w.osRequests = some reqs ∧ mem = ⟨some reqs, now⟩))
    (hc : ∀ k' v, osCacheLookupFresh c k' now ttl = some v →
      v = osAns w k' now thr)
    (hcov : ∀ reqs k' v, w.osRequests = some reqs →
      (buildCacheUpdates reqs now thr).isSome = true →
      prefetchVal reqs k' now thr = some v →
      osCacheLookupFresh c k' now ttl = some v) :
    (isRecentRequest w mem c now ttl thr k).1 = osAns w k now thr ∧
    (isRecentRequest w mem c now ttl thr k).2.1 = mem ∧
    (∀ k' v,
      osCacheLookupFresh (isRecentRequest w mem c now ttl thr k).2.2.1 k' now
        ttl = some v → v = osAns w k' now thr) ∧
    (∀ reqs k' v, w.osRequests = some reqs →
      (buildCacheUpdates reqs now thr).isSome = true →
      prefetchVal reqs k' now thr = some v →
      osCacheLookupFresh (isRecentRequest w mem c now ttl thr k).2.2.1 k' now
        ttl = some v) ∧
    (∀ k' r,
      (isRecentRequest w mem c now ttl thr k).2.2.1.find?
        (fun row => row.showId == k') = some r →
      c.find? (fun row => row.showId == k') = some r ∨
        r.lastChecked = now) := by
  rcases hl : osCacheLookupFresh c k now ttl with _ | v
  · rcases hmem with ⟨hw, hm⟩ | ⟨reqs, hw, hm⟩
    · have hre : isRecentRequest w mem c now ttl thr k = (false, mem, c, 1) := by
        simp [isRecentRequest, isRecentRequest.refetch, hl, hm,
          fetchAllRequests, fetchAllRequests.fetchFresh, hw]
      rw [hre]
      exact ⟨by simp [osAns, hw], rfl, hc, hcov, fun k' r h => Or.inl h⟩
    · subst hm
      have hnotcov : (buildCacheUpdates reqs now thr).isSome = true →
          prefetchVal reqs k now thr = none := by
        intro hbOk
        rcases hp : prefetchVal reqs k now thr with _ | v
        · rfl
        · exact absurd (hcov reqs k v hw hbOk hp) (by simp [hl])
      have hosAns : osAns w k now thr = scanAns reqs k now thr := by
        simp only [osAns, hw]
        rcases hb : buildCacheUpdates reqs now thr with _ | rows
        · rfl
        · rw [hnotcov (by simp [hb])]
      rcases hscan : scanRequests k now thr reqs none with _ | ⟨b, mr⟩
      · have hre : isRecentRequest w (⟨some reqs, now⟩ : OsMem) c now ttl thr
            k = (false, ⟨some reqs, now⟩, c, 0) := by
          simp [isRecentRequest, hl, requestsCacheTtl, processMemoryCache,
            hscan]
        rw [hre]
        refine ⟨?_, rfl, hc, hcov, fun k' r h => Or.inl h⟩
        rw [hosAns]
        simp [scanAns, hscan]
      · have hre : ∃ d, isRecentRequest w (⟨some reqs, now⟩ : OsMem) c now ttl
            thr k = (b, ⟨some reqs, now⟩,
              osCachePut c ⟨k, "", b, d, now⟩, 0) := by
          rcases mr with _ | mt
          · exact ⟨.missing, by simp [isRecentRequest, hl, requestsCacheTtl,
              processMemoryCache, hscan]⟩
          · exact ⟨.valid mt, by simp [isRecentRequest, hl, requestsCacheTtl,
              processMemoryCache, hscan]⟩
        obtain ⟨d, hre⟩ := hre
        have hbans : b = osAns w k now thr := by
          rw [hosAns]
          simp [scanAns, hscan]
        rw [hre]
        refine ⟨hbans, rfl, ?_, ?_, ?_⟩
        · intro k' v hv
          rw [osCacheLookupFresh_put] at hv
          by_cases hk : k' = k
          · subst hk
            simp [show now - now < ttl from by omega] at hv
            rw [← hv.2]
            exact hbans
          · simp only at hv
            rw [if_neg hk] at hv
            exact hc k' v hv
        · intro reqs' k' v hw' hbOk hp
          rw [hw] at hw'
          have hreqs : reqs' = reqs := by injection hw' with h; exact h.symm
          rw [hreqs] at hbOk hp
          by_cases hk : k' = k
          · subst hk
            rw [hnotcov hbOk] at hp
            exact absurd hp (by simp)
          · rw [osCacheLookupFresh_put]
            simp only
            rw [if_neg hk]
            exact hcov reqs k' v hw hbOk hp
        · intro k' r hr
          rw [osFind_osCachePut] at hr
          by_cases hk : k' = k
          · simp only [hk, if_pos] at hr
            have hrr : r = ⟨k, "", b, d, now⟩ := by
              simp at hr
              exact hr.symm
            exact Or.inr (by rw [hrr])
          · simp only at hr
            rw [if_neg hk] at hr
            exact Or.inl hr
  · have hre : isRecentRequest w mem c now ttl thr k = (v, mem, c, 0) := by
      simp [isRecentRequest, hl]
    rw [hre]
    exact ⟨hc k v hl, rfl, hc, hcov, fun k' r h => Or.inl h⟩

/-- Shared helper: the recent-request guard of the loop answers
`!skipOverseerr && osAns`, preserving the cache agreement, the covered-row
property and the snapshot. -/
lemma osGuard_pure (w : World) (cfg : Config) (mem : OsMem) (c : OsCache)
    (now ttl thr : Int) (k : String) (httl : 0 < ttl)
    (hmem : MemOk w cfg mem now)
    (hc : ∀ k' v, osCacheLookupFresh c k' now ttl = some v →
      v = osAns w k' now thr)
    (hcov : ∀ reqs k' v, cfg.skipOverseerr = false →
      w.osRequests = some reqs →
      (buildCacheUpdates reqs now thr).isSome = true →
      prefetchVal reqs k' now thr = some v →
      osCacheLookupFresh c k' now ttl = some v) :
    (osGuard w cfg mem c now ttl thr k).1 =
      (!cfg.skipOverseerr && osAns w k now thr) ∧
    (osGuard w cfg mem c now ttl thr k).2.1 = mem ∧
    (∀ k' v, osCacheLookupFresh (osGuard w cfg mem c now ttl thr k).2.2.1 k'
      now ttl = some v → v = osAns w k' now thr) ∧
    (∀ reqs k' v, cfg.skipOverseerr = false → w.osRequests = some reqs →
      (buildCacheUpdates reqs now thr).isSome = true →
      prefetchVal reqs k' now thr = some v →
      osCacheLookupFresh (osGuard w cfg mem c now ttl thr k).2.2.1 k' now ttl
        = some v) ∧
    (∀ k' r, (osGuard w cfg mem c now ttl thr k).2.2.1.find?
        (fun row => row.showId == k') = some r →
      c.find? (fun row => row.showId == k') = some r ∨
        r.lastChecked = now) := by
  rcases hskip : cfg.skipOverseerr
  · have hmem' : (w.osRequests = none ∧ mem.requestsCache = none) ∨
        (∃ reqs, w.osRequests = some reqs ∧ mem = ⟨some reqs, now⟩) := by
      rcases hmem with h | h | h
      · rw [hskip] at h
        exact absurd h (by simp)
      · exact Or.inl h
      · exact Or.inr h
    have hp := isRecentRequest_pure w mem c now ttl thr k httl hmem' hc
      (fun reqs k' v h1 h2 h3 => hcov reqs k' v hskip h1 h2 h3)
    refine ⟨?_, ?_, ?_, ?_, ?_⟩
    · rw [show osGuard w cfg mem c now ttl thr k =
        isRecentRequest w mem c now ttl thr k by simp [osGuard, hskip]]
      simp [hp.1, hskip]
    · rw [show osGuard w cfg mem c now ttl thr k =
        isRecentRequest w mem c now ttl thr k by simp [osGuard, hskip]]
      exact hp.2.1
    · rw [show osGuard w cfg mem c now ttl thr k =
        isRecentRequest w mem c now ttl thr k by simp [osGuard, hskip]]
      exact hp.2.2.1
    · rw [show osGuard w cfg mem c now ttl thr k =
        isRecentRequest w mem c now ttl thr k by simp [osGuard, hskip]]
      exact fun reqs k' v _ h2 h3 h4 => hp.2.2.2.1 reqs k' v h2 h3 h4
    · rw [show osGuard w cfg mem c now ttl thr k =
        isRecentRequest w mem c now ttl thr k by simp [osGuard, hskip]]
      exact hp.2.2.2.2
  · have hg : osGuard w cfg mem c now ttl thr k = (false, mem, c, 0) := by
      simp [osGuard, hskip]
    rw [hg]
    exact ⟨by simp [hskip], rfl, hc,
      fun reqs k' v h _ _ _ => absurd h (by simp),
      fun k' r h => Or.inl h⟩

/-- Shared helper: the watch-stats guard of the loop answers
`!skipTautulli && tautAns`, preserving the cache agreement. -/
lemma tautGuard_pure (w : World) (cfg : Config) (c : BoolCache)
    (now ttl : Int) (k : String) (httl : 0 < ttl)
    (hc : ∀ k' v, cacheLookupFresh c k' now ttl = some v → v = tautAns w k') :
    (tautGuard w cfg c now ttl k).1.1 =
      (!cfg.skipTautulli && tautAns w k) ∧
    (∀ k' v, cacheLookupFresh (tautGuard w cfg c now ttl k).2.1 k' now ttl
      = some v → v = tautAns w k') ∧
    (∀ k' v t, cacheGet (tautGuard w cfg c now ttl k).2.1 k' = some (v, t) →
      cacheGet c k' = some (v, t) ∨ t = now) := by
  rcases hskip : cfg.skipTautulli
  · have hp := getWatchStats_pure w c now ttl k httl hc
    have hg : tautGuard w cfg c now ttl k = getWatchStats w c now ttl k := by
      simp [tautGuard, hskip]
    rw [hg]
    exact ⟨by simp [hp.1], hp.2.1, hp.2.2⟩
  · have hg : tautGuard w cfg c now ttl k = ((false, none), c, 0) := by
      simp [tautGuard, hskip]
    rw [hg]
    exact ⟨by simp [hskip], hc, fun k' v t h => Or.inl h⟩

/-- Shared helper: under the invariant, one loop iteration classifies the
show eligible exactly per `eligiblePure`, leaves the snapshot unchanged,
preserves the invariant, and stamps any new cache row at the run instant. -/
lemma classifyShow_pure (w : World) (cfg : Config) (db : Db) (mem : OsMem)
    (now ttl thr : Int) (s : Show) (httl : 0 < ttl)
    (hmem : MemOk w cfg mem now)
    (hinv : Inv w cfg db now ttl thr) :
    ((classifyShow w cfg db mem now ttl thr s).1).isEligibleOutcome
      = eligiblePure w cfg now thr s ∧
    (classifyShow w cfg db mem now ttl thr s).2.2.1 = mem ∧
    Inv w cfg (classifyShow w cfg db mem now ttl thr s).2.1 now ttl thr ∧
    StampPres db (classifyShow w cfg db mem now ttl thr s).2.1 now := by
  obtain ⟨hT, hP, hO, hC⟩ := hinv
  by_cases h1 : (cfg.ignoreFirstSeason && s.hasOnlyFirstSeason) = true
  · have hcl : classifyShow w cfg db mem now ttl thr s =
        (.rejectedStructural, db, mem, ⟨0, 0, 0⟩) := by
      simp [classifyShow, h1]
    rw [hcl]
    refine ⟨?_, rfl, ⟨hT, hP, hO, hC⟩,
      ⟨fun k v t h => Or.inl h, fun k v t h => Or.inl h,
        fun k r h => Or.inl h⟩⟩
    simp [Outcome.isEligibleOutcome, eligiblePure, h1]
  by_cases h2 : (cfg.ignoreFirstEpisode && s.hasOnlyFirstEpisode) = true
  · have hcl : classifyShow w cfg db mem now ttl thr s =
        (.rejectedStructural, db, mem, ⟨0, 0, 0⟩) := by
      simp [classifyShow, h1, h2]
    rw [hcl]
    refine ⟨?_, rfl, ⟨hT, hP, hO, hC⟩,
      ⟨fun k v t h => Or.inl h, fun k v t h => Or.inl h,
        fun k r h => Or.inl h⟩⟩
    simp [Outcome.isEligibleOutcome, eligiblePure, h1, h2]
  have hOsP := osGuard_pure w cfg mem db.overseerrCache now ttl thr s.id httl
    hmem hO hC
  rcases hOsR : osGuard w cfg mem db.overseerrCache now ttl thr s.id with
    ⟨osB, osMem2, osC, osN⟩
  rw [hOsR] at hOsP
  have hTtP := tautGuard_pure w cfg db.tautulliCache now ttl s.id httl hT
  rcases hTtR : tautGuard w cfg db.tautulliCache now ttl s.id with
    ⟨⟨tb, ttv⟩, tc, tn⟩
  rw [hTtR] at hTtP
  have hPxP := hasWatchHistory_pure w db.plexCache now ttl s.id httl hP
  rcases hPxR : hasWatchHistory w db.plexCache now ttl s.id with ⟨pb, pc, pn⟩
  rw [hPxR] at hPxP
  have hcl : classifyShow w cfg db mem now ttl thr s =
      if osB then
        (.rejectedRecentRequest,
          ⟨db.shows, db.actions, osC, db.tautulliCache, db.plexCache⟩, osMem2,
          ⟨osN, 0, 0⟩)
      else if tb then
        (.rejectedTautulli,
          ⟨db.shows, db.actions, osC, tc, db.plexCache⟩, osMem2,
          ⟨osN, tn, 0⟩)
      else if pb then
        (.rejectedPlex,
          ⟨db.shows, db.actions, osC, tc, pc⟩, osMem2, ⟨osN, tn, pn⟩)
      else
        (.eligible ttv,
          ⟨db.shows, db.actions, osC, tc, pc⟩, osMem2, ⟨osN, tn, pn⟩) := by
    simp [classifyShow, h1, h2, hOsR, hTtR, hPxR]
  have hb1 : (cfg.ignoreFirstSeason && s.hasOnlyFirstSeason) = false := by
    simpa using h1
  have hb2 : (cfg.ignoreFirstEpisode && s.hasOnlyFirstEpisode) = false := by
    simpa using h2
  have heg : eligiblePure w cfg now thr s = (!osB && !tb && !pb) := by
    simp only [eligiblePure]
    rw [hb1, hb2, ← hOsP.1, ← hTtP.1, ← hPxP.1]
    simp
  have hmemEq : osMem2 = mem := hOsP.2.1
  have hGoodOsC := hOsP.2.2.1
  have hCovOsC := hOsP.2.2.2.1
  have hStampOsC := hOsP.2.2.2.2
  have hGoodTc := hTtP.2.1
  have hStampTc := hTtP.2.2
  have hGoodPc := hPxP.2.1
  have hStampPc := hPxP.2.2
  rw [hcl]
  cases osB
  · cases tb
    · cases pb
      · rw [if_neg (by simp), if_neg (by simp), if_neg (by simp)]
        exact ⟨by simp [Outcome.isEligibleOutcome, heg], hmemEq,
          ⟨hGoodTc, hGoodPc, hGoodOsC, hCovOsC⟩,
          ⟨hStampTc, hStampPc, hStampOsC⟩⟩
      · rw [if_neg (by simp), if_neg (by simp), if_pos rfl]
        exact ⟨by simp [Outcome.isEligibleOutcome, heg], hmemEq,
          ⟨hGoodTc, hGoodPc, hGoodOsC, hCovOsC⟩,
          ⟨hStampTc, hStampPc, hStampOsC⟩⟩
    · rw [if_neg (by simp), if_pos rfl]
      exact ⟨by simp [Outcome.isEligibleOutcome, heg], hmemEq,
        ⟨hGoodTc, hP, hGoodOsC, hCovOsC⟩,
        ⟨hStampTc, fun k v t h => Or.inl h, hStampOsC⟩⟩
  · rw [if_pos rfl]
    exact ⟨by simp [Outcome.isEligibleOutcome, heg], hmemEq,
      ⟨hT, hP, hGoodOsC, hCovOsC⟩,
      ⟨fun k v t h => Or.inl h, fun k v t h => Or.inl h, hStampOsC⟩⟩

/-- Shared helper: characterization of a fresh boolean-cache read. -/
lemma cacheLookupFresh_eq_some (c : BoolCache) (k : String) (now ttl : Int)
    (v : Bool) :
    cacheLookupFresh c k now ttl = some v ↔
      ∃ t, cacheGet c k = some (v, t) ∧ now - t < ttl := by
  rcases hg : cacheGet c k with _ | ⟨v', t⟩
  · simp [cacheLookupFresh, hg]
  · simp only [cacheLookupFresh, hg]
    constructor
    · intro h
      by_cases hf : now - t < ttl
      · rw [if_pos hf] at h
        have hv : v' = v := Option.some.inj h
        exact ⟨t, by rw [hv], hf⟩
      · rw [if_neg hf] at h
        exact absurd h (by simp)
    · rintro ⟨t', ht', hf'⟩
      have hpair := Option.some.inj ht'
      have hv : v' = v := congrArg Prod.fst hpair
      have ht : t = t' := congrArg Prod.snd hpair
      rw [if_pos (show now - t < ttl by omega), hv]

/-- Shared helper: characterization of a fresh Overseerr-cache read. -/
lemma osCacheLookupFresh_eq_some (c : OsCache) (k : String) (now ttl : Int)
    (v : Bool) :
    osCacheLookupFresh c k now ttl = some v ↔
      ∃ r, c.find? (fun row => row.showId == k) = some r ∧
        r.hasRecentRequest = v ∧ now - r.lastChecked < ttl := by
  rcases hg : c.find? (fun row => row.showId == k) with _ | r
  · simp [osCacheLookupFresh, hg]
  · simp only [osCacheLookupFresh, hg]
    constructor
    · intro h
      by_cases hf : now - r.lastChecked < ttl
      · rw [if_pos hf] at h
        exact ⟨r, rfl, Option.some.inj h, hf⟩
      · rw [if_neg hf] at h
        exact absurd h (by simp)
    · rintro ⟨r', hr', hv, hf⟩
      have hr : r = r' := Option.some.inj hr'
      subst hr
      rw [if_pos hf, hv]

/-- Shared helper: the batch-left row for a key sits in the batch. -/
lemma lastRowFor_mem :
    ∀ (rows : List OsCacheRow) (k : String) (r : OsCacheRow),
      lastRowFor rows k = some r → r ∈ rows := by
  intro rows
  induction rows with
  | nil => intro k r h; simp [lastRowFor] at h
  | cons row rest ih =>
    intro k r h
    rw [lastRowFor] at h
    rcases hl : lastRowFor rest k with _ | r'
    · rw [hl] at h
      by_cases hk : (row.showId == k) = true
      · rw [if_pos hk] at h
        exact List.mem_cons.mpr (Or.inl (Option.some.inj h).symm)
      · rw [if_neg hk] at h
        exact absurd h (by simp)
    · rw [hl] at h
      have : r' = r := Option.some.inj h
      exact List.mem_cons.mpr (Or.inr (this ▸ ih k r' hl))

/-- Shared helper: `StampPres` is reflexive. -/
lemma stampPres_refl (db : Db) (now : Int) : StampPres db db now :=
  ⟨fun _ _ _ h => Or.inl h, fun _ _ _ h => Or.inl h, fun _ _ h => Or.inl h⟩

/-- Shared helper: `StampPres` composes. -/
lemma stampPres_trans {db1 db2 db3 : Db} {now : Int}
    (h12 : StampPres db1 db2 now) (h23 : StampPres db2 db3 now) :
    StampPres db1 db3 now := by
  refine ⟨fun k v t h => ?_, fun k v t h => ?_, fun k r h => ?_⟩
  · rcases h23.1 k v t h with h' | h'
    · exact h12.1 k v t h'
    · exact Or.inr h'
  · rcases h23.2.1 k v t h with h' | h'
    · exact h12.2.1 k v t h'
    · exact Or.inr h'
  · rcases h23.2.2 k r h with h' | h'
    · exact h12.2.2 k r h'
    · exact Or.inr h'

/-- Shared helper: a store reached from empty caches with all writes stamped
`now` has every row stamped `now`. -/
lemma stamped_of_empty (shows0 : List ShowRow) (acts0 : List ActionRow)
    (db' : Db) (now : Int)
    (h : StampPres ⟨shows0, acts0, [], [], []⟩ db' now) : Stamped db' now := by
  refine ⟨fun k v t hg => ?_, fun k v t hg => ?_, fun k r hg => ?_⟩
  · rcases h.1 k v t hg with h' | h'
    · exact absurd h' (by simp [cacheGet])
    · exact h'
  · rcases h.2.1 k v t hg with h' | h'
    · exact absurd h' (by simp [cacheGet])
    · exact h'
  · rcases h.2.2 k r hg with h' | h'
    · exact absurd h' (by simp)
    · exact h'

/-- Shared helper: eligible-item processing never touches the caches. -/
lemma processEligible_caches (w : World) (cfg : Config) (db : Db) (now : Int)
    (s : Show) (tv : Option String) :
    (processEligible w cfg db now s tv).1.overseerrCache = db.overseerrCache ∧
    (processEligible w cfg db now s tv).1.tautulliCache = db.tautulliCache ∧
    (processEligible w cfg db now s tv).1.plexCache = db.plexCache :=
  ⟨rfl, rfl, rfl⟩

/-- Shared helper: the invariant only reads the three caches. -/
lemma inv_caches_congr {w : World} {cfg : Config} {db db' : Db}
    {now ttl thr : Int}
    (hO : db'.overseerrCache = db.overseerrCache)
    (hT : db'.tautulliCache = db.tautulliCache)
    (hP : db'.plexCache = db.plexCache)
    (h : Inv w cfg db now ttl thr) : Inv w cfg db' now ttl thr := by
  obtain ⟨h1, h2, h3, h4⟩ := h
  refine ⟨?_, ?_, ?_, ?_⟩
  · rw [hT]; exact h1
  · rw [hP]; exact h2
  · rw [hO]; exact h3
  · rw [hO]; exact h4

/-- Shared helper: `StampPres` only reads the three caches of its target. -/
lemma stampPres_caches_congr {db0 db db' : Db} {now : Int}
    (hO : db'.overseerrCache = db.overseerrCache)
    (hT : db'.tautulliCache = db.tautulliCache)
    (hP : db'.plexCache = db.plexCache)
    (h : StampPres db0 db now) : StampPres db0 db' now := by
  obtain ⟨h1, h2, h3⟩ := h
  refine ⟨?_, ?_, ?_⟩
  · rw [hT]; exact h1
  · rw [hP]; exact h2
  · rw [hO]; exact h3

/-- Shared helper: under the invariant, one fold step appends the show to the
eligible accumulator exactly per `eligiblePure`, keeps the snapshot unchanged,
preserves the invariant, and stamps every new cache row at the run instant. -/
lemma pipelineStep_pure (w : World) (cfg : Config) (now ttl thr : Int)
    (s : Show) (elig : List Show) (db : Db) (mem : OsMem) (cN : Nat)
    (httl : 0 < ttl) (hmem : MemOk w cfg mem now)
    (hinv : Inv w cfg db now ttl thr) :
    ∃ db' cN',
      pipelineStep w cfg now ttl thr (elig, db, mem, cN) s =
        (elig ++ (if eligiblePure w cfg now thr s = true then [s] else []),
          db', mem, cN') ∧
      Inv w cfg db' now ttl thr ∧ StampPres db db' now := by
  have hcp := classifyShow_pure w cfg db mem now ttl thr s httl hmem hinv
  rcases hr : classifyShow w cfg db mem now ttl thr s with ⟨out, db1, mem1, gc⟩
  rw [hr] at hcp
  have hcp' : out.isEligibleOutcome = eligiblePure w cfg now thr s ∧
      mem1 = mem ∧ Inv w cfg db1 now ttl thr ∧ StampPres db db1 now := hcp
  obtain ⟨helig, hmem1, hinv1, hsp1⟩ := hcp'
  cases out with
  | eligible tv =>
    have he : eligiblePure w cfg now thr s = true := by rw [← helig]; rfl
    have hpc := processEligible_caches w cfg db1 now s tv
    refine ⟨(processEligible w cfg db1 now s tv).1,
      cN + gc.total + (processEligible w cfg db1 now s tv).2, ?_, ?_, ?_⟩
    · have hstep : pipelineStep w cfg now ttl thr (elig, db, mem, cN) s =
          (elig ++ [s], (processEligible w cfg db1 now s tv).1, mem1,
            cN + gc.total + (processEligible w cfg db1 now s tv).2) := by
        simp [pipelineStep, hr]
      rw [hstep, hmem1, he]
      simp
    · exact inv_caches_congr hpc.1 hpc.2.1 hpc.2.2 hinv1
    · exact stampPres_caches_congr hpc.1 hpc.2.1 hpc.2.2 hsp1
  | rejectedStructural =>
    have he : eligiblePure w cfg now thr s = false := by rw [← helig]; rfl
    refine ⟨db1, cN + gc.total, ?_, hinv1, hsp1⟩
    have hstep : pipelineStep w cfg now ttl thr (elig, db, mem, cN) s =
        (elig, db1, mem1, cN + gc.total) := by
      simp [pipelineStep, hr]
    rw [hstep, hmem1, he]
    simp
  | rejectedRecentRequest =>
    have he : eligiblePure w cfg now thr s = false := by rw [← helig]; rfl
    refine ⟨db1, cN + gc.total, ?_, hinv1, hsp1⟩
    have hstep : pipelineStep w cfg now ttl thr (elig, db, mem, cN) s =
        (elig, db1, mem1, cN + gc.total) := by
      simp [pipelineStep, hr]
    rw [hstep, hmem1, he]
    simp
  | rejectedTautulli =>
    have he : eligiblePure w cfg now thr s = false := by rw [← helig]; rfl
    refine ⟨db1, cN + gc.total, ?_, hinv1, hsp1⟩
    have hstep : pipelineStep w cfg now ttl thr (elig, db, mem, cN) s =
        (elig, db1, mem1, cN + gc.total) := by
      simp [pipelineStep, hr]
    rw [hstep, hmem1, he]
    simp
  | rejectedPlex =>
    have he : eligiblePure w cfg now thr s = false := by rw [← helig]; rfl
    refine ⟨db1, cN + gc.total, ?_, hinv1, hsp1⟩
    have hstep : pipelineStep w cfg now ttl thr (elig, db, mem, cN) s =
        (elig, db1, mem1, cN + gc.total) := by
      simp [pipelineStep, hr]
    rw [hstep, hmem1, he]
    simp

/-- Shared helper: under the invariant, the whole per-show fold appends
exactly the `eligiblePure`-filtered shows, keeps the snapshot, preserves the
invariant, and stamps every new cache row at the run instant. -/
lemma pipelineFold_pure (w : World) (cfg : Config) (now ttl thr : Int)
    (httl : 0 < ttl) :
    ∀ (shows : List Show) (elig : List Show) (db : Db) (mem : OsMem) (cN : Nat),
      MemOk w cfg mem now → Inv w cfg db now ttl thr →
      ∃ db' cN',
        shows.foldl (pipelineStep w cfg now ttl thr) (elig, db, mem, cN) =
          (elig ++ shows.filter (eligiblePure w cfg now thr), db', mem, cN') ∧
        Inv w cfg db' now ttl thr ∧ StampPres db db' now := by
  intro shows
  induction shows with
  | nil =>
    intro elig db mem cN hmem hinv
    exact ⟨db, cN, by simp, hinv, stampPres_refl db now⟩
  | cons s rest ih =>
    intro elig db mem cN hmem hinv
    obtain ⟨db1, cN1, hstep, hinv1, hsp1⟩ :=
      pipelineStep_pure w cfg now ttl thr s elig db mem cN httl hmem hinv
    obtain ⟨db2, cN2, hfold, hinv2, hsp2⟩ :=
      ih (elig ++ (if eligiblePure w cfg now thr s = true then [s] else []))
        db1 mem cN1 hmem hinv1
    refine ⟨db2, cN2, ?_, hinv2, stampPres_trans hsp1 hsp2⟩
    rw [List.foldl_cons, hstep, hfold]
    by_cases he : eligiblePure w cfg now thr s = true
    · simp [List.filter_cons, he]
    · simp [List.filter_cons, he]

/-- Shared helper: a whole run returns exactly the pure eligible set, issues
at least one outbound call, stamps every new cache row at the run instant,
and leaves a store satisfying the invariant, provided every fresh starting
row agrees with the pure answers. -/
lemma runPipeline_pure (w : World) (cfg : Config) (db : Db)
    (now ttl thr : Int) (httl : 0 < ttl)
    (hT : ∀ k v, cacheLookupFresh db.tautulliCache k now ttl = some v →
      v = tautAns w k)
    (hP : ∀ k v, cacheLookupFresh db.plexCache k now ttl = some v →
      v = plexAns w k)
    (hO : ∀ k v, osCacheLookupFresh db.overseerrCache k now ttl = some v →
      v = osAns w k now thr) :
    ∃ db' cN,
      runPipeline w cfg db now ttl thr =
        ((w.plexShows.getD []).filter (eligiblePure w cfg now thr), db', cN) ∧
      Inv w cfg db' now ttl thr ∧ StampPres db db' now ∧ 1 ≤ cN := by
  rcases hskip : cfg.skipOverseerr
  · obtain ⟨mem1, c1, hf2, hmem1, hGood1, hCov1, hStamp1⟩ :
        ∃ mem1 c1,
          (fetchAllRequests w ⟨none, 0⟩ db.overseerrCache now thr
            cfg.forceRefresh).2 = (mem1, c1, 1) ∧
          MemOk w cfg mem1 now ∧
          (∀ k v, osCacheLookupFresh c1 k now ttl = some v →
            v = osAns w k now thr) ∧
          (∀ reqs k v, w.osRequests = some reqs →
            (buildCacheUpdates reqs now thr).isSome = true →
            prefetchVal reqs k now thr = some v →
            osCacheLookupFresh c1 k now ttl = some v) ∧
          (∀ k r, c1.find? (fun row => row.showId == k) = some r →
            db.overseerrCache.find? (fun row => row.showId == k) = some r ∨
              r.lastChecked = now) := by
      rcases hw : w.osRequests with _ | reqs
      · refine ⟨⟨none, 0⟩, db.overseerrCache, ?_, Or.inr (Or.inl ⟨hw, rfl⟩),
          hO, ?_, fun k r h => Or.inl h⟩
        · simp [fetchAllRequests, fetchAllRequests.fetchFresh, hw]
        · intro reqs k v hw'
          exact absurd hw' (by simp)
      · rcases hb : buildCacheUpdates reqs now thr with _ | rows
        · refine ⟨⟨some reqs, now⟩, db.overseerrCache, ?_,
            Or.inr (Or.inr ⟨reqs, hw, rfl⟩), hO, ?_, fun k r h => Or.inl h⟩
          · simp [fetchAllRequests, fetchAllRequests.fetchFresh, hw,
              updateDatabaseCache, hb]
          · intro reqs' k v hw' hbOk hp
            have hre : reqs' = reqs := (Option.some.inj hw').symm
            rw [hre, hb] at hbOk
            exact absurd hbOk (by simp)
        · refine ⟨⟨some reqs, now⟩, applyCacheUpdates db.overseerrCache rows,
            ?_, Or.inr (Or.inr ⟨reqs, hw, rfl⟩), ?_, ?_, ?_⟩
          · simp [fetchAllRequests, fetchAllRequests.fetchFresh, hw,
              updateDatabaseCache, hb]
          · intro k v hv
            rw [osCacheLookupFresh_eq_some] at hv
            obtain ⟨r, hfind, hvv, hfr'⟩ := hv
            rw [applyCacheUpdates_find rows db.overseerrCache k] at hfind
            have hlb := lastRowFor_build now thr reqs rows hb k
            rcases hp : prefetchVal reqs k now thr with _ | v0
            · rw [hp] at hlb
              rw [hlb] at hfind
              have hfind' : db.overseerrCache.find?
                  (fun row => row.showId == k) = some r := hfind
              exact hO k v
                ((osCacheLookupFresh_eq_some db.overseerrCache k now ttl
                  v).mpr ⟨r, hfind', hvv, hfr'⟩)
            · rw [hp] at hlb
              obtain ⟨nm, d, hlast⟩ := hlb
              rw [hlast] at hfind
              have hrr : (⟨k, nm, v0, d, now⟩ : OsCacheRow) = r :=
                Option.some.inj hfind
              have hv0 : v = v0 := by rw [← hvv, ← hrr]
              rw [hv0]
              simp [osAns, hw, hb, hp]
          · intro reqs' k v hw' hbOk hp
            have hre : reqs' = reqs := (Option.some.inj hw').symm
            rw [hre] at hp
            have hlb := lastRowFor_build now thr reqs rows hb k
            rw [hp] at hlb
            obtain ⟨nm, d, hlast⟩ := hlb
            rw [osCacheLookupFresh_eq_some]
            refine ⟨⟨k, nm, v, d, now⟩, ?_, rfl,
              show now - now < ttl by omega⟩
            rw [applyCacheUpdates_find rows db.overseerrCache k, hlast]
          · intro k r hfind
            rw [applyCacheUpdates_find rows db.overseerrCache k] at hfind
            rcases hl : lastRowFor rows k with _ | r0
            · rw [hl] at hfind
              have hfind' : db.overseerrCache.find?
                  (fun row => row.showId == k) = some r := hfind
              exact Or.inl hfind'
            · rw [hl] at hfind
              have hrr : r0 = r := Option.some.inj hfind
              exact Or.inr (hrr ▸ buildCacheUpdates_stamped now thr reqs rows
                hb r0 (lastRowFor_mem rows k r0 hl))
    have hc1 : (fetchAllRequests w ⟨none, 0⟩ db.overseerrCache now thr
        cfg.forceRefresh).2.2.1 = c1 := by rw [hf2]
    have hm1 : (fetchAllRequests w ⟨none, 0⟩ db.overseerrCache now thr
        cfg.forceRefresh).2.1 = mem1 := by rw [hf2]
    have hn1 : (fetchAllRequests w ⟨none, 0⟩ db.overseerrCache now thr
        cfg.forceRefresh).2.2.2 = 1 := by rw [hf2]
    have hinv1 : Inv w cfg ({ db with overseerrCache := c1 }) now ttl thr :=
      ⟨hT, hP, hGood1, fun reqs k v _ => hCov1 reqs k v⟩
    obtain ⟨db2, cN2, hfold, hinv2, hsp2⟩ :=
      pipelineFold_pure w cfg now ttl thr httl (w.plexShows.getD []) []
        ({ db with overseerrCache := c1 }) mem1 0 hmem1 hinv1
    refine ⟨db2, 1 + 1 + cN2, ?_, hinv2, ?_, by omega⟩
    · simp [runPipeline, hskip, hc1, hm1, hn1, hfold]
    · exact stampPres_trans
        (⟨fun k v t h => Or.inl h, fun k v t h => Or.inl h, hStamp1⟩ :
          StampPres db ({ db with overseerrCache := c1 }) now) hsp2
  · have hinv : Inv w cfg db now ttl thr := by
      refine ⟨hT, hP, hO, ?_⟩
      intro reqs k v hsk
      rw [hskip] at hsk
      exact absurd hsk (by simp)
    obtain ⟨db2, cN2, hfold, hinv2, hsp2⟩ :=
      pipelineFold_pure w cfg now ttl thr httl (w.plexShows.getD []) [] db
        ⟨none, 0⟩ 0 (Or.inl hskip) hinv
    refine ⟨db2, 0 + 1 + cN2, ?_, hinv2, hsp2, by omega⟩
    simp [runPipeline, hskip, hfold]

/-- Shared helper: a store whose rows are all stamped at the first run
instant and satisfy the invariant there keeps the pure-answer agreement at a
later instant, given the recency-threshold drift stability. -/
lemma good_transfer (w : World) (cfg : Config) (db : Db)
    (now1 now2 ttl thr : Int) (httl : 0 < ttl)
    (hst : Stamped db now1)
    (hd : ∀ reqs, w.osRequests = some reqs → ∀ r ∈ reqs, ∀ t : Int,
      r.createdAt = .valid t →
      (now2 - t < thr * secondsPerDay ↔ now1 - t < thr * secondsPerDay))
    (hinv : Inv w cfg db now1 ttl thr) :
    (∀ k v, cacheLookupFresh db.tautulliCache k now2 ttl = some v →
      v = tautAns w k) ∧
    (∀ k v, cacheLookupFresh db.plexCache k now2 ttl = some v →
      v = plexAns w k) ∧
    (∀ k v, osCacheLookupFresh db.overseerrCache k now2 ttl = some v →
      v = osAns w k now2 thr) := by
  obtain ⟨hT, hP, hO, _⟩ := hinv
  obtain ⟨sT, sP, sO⟩ := hst
  refine ⟨?_, ?_, ?_⟩
  · intro k v hv
    rw [cacheLookupFresh_eq_some] at hv
    obtain ⟨t, hg, _⟩ := hv
    have ht : t = now1 := sT k v t hg
    exact hT k v
      ((cacheLookupFresh_eq_some db.tautulliCache k now1 ttl v).mpr
        ⟨t, hg, by omega⟩)
  · intro k v hv
    rw [cacheLookupFresh_eq_some] at hv
    obtain ⟨t, hg, _⟩ := hv
    have ht : t = now1 := sP k v t hg
    exact hP k v
      ((cacheLookupFresh_eq_some db.plexCache k now1 ttl v).mpr
        ⟨t, hg, by omega⟩)
  · intro k v hv
    rw [osCacheLookupFresh_eq_some] at hv
    obtain ⟨r, hg, hvv, _⟩ := hv
    have ht := sO k r hg
    have h1 : v = osAns w k now1 thr :=
      hO k v
        ((osCacheLookupFresh_eq_some db.overseerrCache k now1 ttl v).mpr
          ⟨r, hg, hvv, by omega⟩)
    rw [h1, osAns_drift w k now1 now2 thr hd]

/-- Claim C6 (corrected): with unchanged source data, a fresh-cache interval
between the runs, and no request record of the world whose valid date crosses
the recency threshold between the two run instants, running the whole
pipeline a second time yields exactly the eligible set of the first run — but
the second run still issues at least one outbound call (the live inventory
enumeration recurs every run), not zero. -/
theorem run_twice_same_eligible_set (w : World) (cfg : Config)
    (shows0 : List ShowRow) (acts0 : List ActionRow) (now1 now2 ttl thr : Int)
    (httl : 0 < ttl) (h12 : now1 ≤ now2) (hfr : now2 - now1 < ttl)
    (hd : ∀ reqs, w.osRequests = some reqs → ∀ r ∈ reqs, ∀ t : Int,
      r.createdAt = Timestamp.valid t →
      (now2 - t < thr * secondsPerDay ↔ now1 - t < thr * secondsPerDay)) :
    (runPipeline w cfg
        (runPipeline w cfg ⟨shows0, acts0, [], [], []⟩ now1 ttl thr).2.1
        now2 ttl thr).1
      = (runPipeline w cfg ⟨shows0, acts0, [], [], []⟩ now1 ttl thr).1 ∧
    1 ≤ (runPipeline w cfg
        (runPipeline w cfg ⟨shows0, acts0, [], [], []⟩ now1 ttl thr).2.1
        now2 ttl thr).2.2 := by
  obtain ⟨db1, cN1, hrun1, hinv1, hsp1, hc1⟩ :=
    runPipeline_pure w cfg ⟨shows0, acts0, [], [], []⟩ now1 ttl thr httl
      (fun k v hv => by simp [cacheLookupFresh, cacheGet] at hv)
      (fun k v hv => by simp [cacheLookupFresh, cacheGet] at hv)
      (fun k v hv => by simp [osCacheLookupFresh] at hv)
  have hstamped : Stamped db1 now1 :=
    stamped_of_empty shows0 acts0 db1 now1 hsp1
  obtain ⟨hgT, hgP, hgO⟩ :=
    good_transfer w cfg db1 now1 now2 ttl thr httl hstamped hd hinv1
  obtain ⟨db2, cN2, hrun2, hinv2, hsp2, hc2⟩ :=
    runPipeline_pure w cfg db1 now2 ttl thr httl hgT hgP hgO
  have h21 : (runPipeline w cfg ⟨shows0, acts0, [], [], []⟩ now1 ttl
      thr).2.1 = db1 := by rw [hrun1]
  have h11 : (runPipeline w cfg ⟨shows0, acts0, [], [], []⟩ now1 ttl
      thr).1 = (w.plexShows.getD []).filter (eligiblePure w cfg now1 thr) := by
    rw [hrun1]
  have hfe : eligiblePure w cfg now2 thr = eligiblePure w cfg now1 thr := by
    funext s
    simp [eligiblePure, osAns_drift w s.id now1 now2 thr hd]
  constructor
  · rw [h21, hrun2, h11, hfe]
  · rw [h21, hrun2]
    exact hc2

/-- Witness: the corrected idempotence law at the concrete one-show world,
with the second run a genuine 1000 seconds after the first (inside the
24-hour cache TTL). -/
theorem run_twice_same_eligible_set_witness :
    (runPipeline worldB fullChecks
        (runPipeline worldB fullChecks ⟨[], [], [], [], []⟩ 1000 86400
          365).2.1 2000 86400 365).1
      = (runPipeline worldB fullChecks ⟨[], [], [], [], []⟩ 1000 86400
          365).1 ∧
    1 ≤ (runPipeline worldB fullChecks
        (runPipeline worldB fullChecks ⟨[], [], [], [], []⟩ 1000 86400
          365).2.1 2000 86400 365).2.2 :=
  run_twice_same_eligible_set worldB fullChecks [] [] 1000 2000 86400 365
    (by decide) (by decide) (by decide)
    (by
      intro reqs hreqs r hr t ht
      have h0 : reqs = [] := (Option.some.inj hreqs).symm
      rw [h0] at hr
      exact absurd hr (by simp))

end ShowSweep
